import Mathlib

/-!
# GoFolio market-data aggregation: a shallow embedding

The Go packages `internal/models`, `pkg/client`, `internal/storage/inmemory`,
`internal/services/market` and `internal/services/scraper` are embedded as pure
Lean functions.  Mutable receivers become explicit state passing, the wall clock
becomes an explicit `now` argument, and the answers of the remote sites are
explicit inputs.

Conventions
* a Go `(value, error)` pair is a structure with fields `val` and `err`
  (`err = none` is Go's `err == nil`); a nil pointer is `none`;
* a Go `map[string]T` is a function `String → Option T`, so two maps are equal
  exactly when they answer every lookup alike;
* `float64` fields are only ever copied by the embedded code and are carried as
  their bit pattern.
-/

namespace GoFolio

/-! ## Package `time` -/

/-- Go `time.Duration`: a signed 64-bit count of nanoseconds. -/
abbrev Duration := Int

/-- Go `time.Time` read as an instant: nanoseconds elapsed since the Unix epoch
(negative before 1970).  The seconds field of `time.Time` is a 64-bit count of
seconds, which no value used here can overflow, so instants are unbounded. -/
abbrev Time := Int

namespace time

def Nanosecond : Duration := 1
def Second : Duration := 1000000000 * Nanosecond
def Minute : Duration := 60 * Second
def Hour : Duration := 60 * Minute

/-- Smallest `time.Duration`, `-1 << 63`. -/
def minDuration : Duration := -9223372036854775808
/-- Largest `time.Duration`, `1<<63 - 1`. -/
def maxDuration : Duration := 9223372036854775807

/-- Two-complement reading of an integer in 64 bits (what an `int64` holds after
an overflowing computation). -/
def wrapInt64 (x : Int) : Int :=
  (x + 9223372036854775808) % 18446744073709551616 - 9223372036854775808

/-- The zero `time.Time`: January 1, year 1, 00:00:00 UTC. -/
def zeroTime : Time := -62135596800000000000

/-- `t.Add(d)`. -/
def Add (t : Time) (d : Duration) : Time := t + d

/-- `t.UnixNano()`: `unixSec*1e9 + nsec` computed in `int64`; it wraps for an
instant outside the years 1678 to 2262. -/
def UnixNano (t : Time) : Int := wrapInt64 t

/-- `t.After(u)`. -/
def After (t u : Time) : Bool := decide (u < t)

/-- `t.Before(u)`. -/
def Before (t u : Time) : Bool := decide (t < u)

/-- `t.Sub(u)`: the difference, saturated to the range of `Duration`. -/
def Sub (t u : Time) : Duration :=
  if minDuration ≤ t - u ∧ t - u ≤ maxDuration then t - u
  else if t < u then minDuration
  else maxDuration

/-- `time.Since(t)` evaluated when the clock reads `now`. -/
def Since (now t : Time) : Duration := Sub now t

end time

/-- A `float64`, carried as its 64-bit pattern. -/
structure Float64 where
  bits : Nat
deriving DecidableEq, Repr

/-- Go `(T, error)` result pair. -/
structure Res (α : Type) where
  val : α
  err : Option String
deriving DecidableEq, Repr

/-! ## Package `internal/services/scraper`: the TTL cache -/

namespace scraper

/-- `CacheItem`: the stored value and its expiry as Unix nanoseconds. -/
structure CacheItem (V : Type) where
  Value : V
  Expiration : Int
deriving DecidableEq, Repr

/-- `CacheService`: the `items` map (the mutex is not modelled: every operation
below runs atomically under it). -/
structure CacheService (V : Type) where
  items : String → Option (CacheItem V)

/-- The map made by `NewCacheService`. -/
def CacheService.empty {V : Type} : CacheService V := { items := fun _ => none }

/-- `CacheService.Set` when the clock reads `now`. -/
def CacheService.Set {V : Type} (c : CacheService V) (now : Time) (key : String) (value : V)
    (duration : Duration) : CacheService V :=
  let expiration := time.UnixNano (time.Add now duration)
  { items := Function.update c.items key (some { Value := value, Expiration := expiration }) }

/-- `CacheService.Get` when the clock reads `now`: `(nil, false)` is `(none, false)`. -/
def CacheService.Get {V : Type} (c : CacheService V) (now : Time) (key : String) : Option V × Bool :=
  match c.items key with
  | none => (none, false)
  | some item =>
    if time.UnixNano now > item.Expiration then (none, false)
    else (some item.Value, true)

/-- `CacheService.Delete`. -/
def CacheService.Delete {V : Type} (c : CacheService V) (key : String) : CacheService V :=
  { items := Function.update c.items key none }

/-- `CacheService.deleteExpired` when the clock reads `now`. -/
def CacheService.deleteExpired {V : Type} (c : CacheService V) (now : Time) : CacheService V :=
  let now := time.UnixNano now
  { items := fun k =>
      match c.items k with
      | none => none
      | some v => if now > v.Expiration then none else some v }

end scraper

/-! ## Package `internal/models` -/

namespace models

/-- `models.CryptoData`. -/
structure CryptoData where
  ID : String := ""
  Symbol : String := ""
  Name : String := ""
  Image : String := ""
  CurrentPrice : Float64 := ⟨0⟩
  MarketCap : Float64 := ⟨0⟩
  MarketCapRank : Int := 0
  TotalVolume : Float64 := ⟨0⟩
  High24h : Float64 := ⟨0⟩
  Low24h : Float64 := ⟨0⟩
  PriceChange24h : Float64 := ⟨0⟩
  PriceChangePercentage24h : Float64 := ⟨0⟩
  MarketCapChange24h : Float64 := ⟨0⟩
  MarketCapChangePercentage24h : Float64 := ⟨0⟩
  CirculatingSupply : Float64 := ⟨0⟩
  TotalSupply : Float64 := ⟨0⟩
  MaxSupply : Float64 := ⟨0⟩
  ATH : Float64 := ⟨0⟩
  ATHChangePercentage : Float64 := ⟨0⟩
  ATHDate : Time := time.zeroTime
  ATL : Float64 := ⟨0⟩
  ATLChangePercentage : Float64 := ⟨0⟩
  ATLDate : Time := time.zeroTime
  LastUpdated : Time := time.zeroTime
  Source : String := ""
deriving DecidableEq, Repr

/-- `models.MarketData`; a `map[string]float64` payload is carried as its entries. -/
structure MarketData where
  CurrentPrice : List (String × Float64) := []
  MarketCap : List (String × Float64) := []
  TotalVolume : List (String × Float64) := []
  High24h : List (String × Float64) := []
  Low24h : List (String × Float64) := []
  PriceChange24h : Float64 := ⟨0⟩
  PriceChangePercentage24h : Float64 := ⟨0⟩
  PriceChangePercentage7d : Float64 := ⟨0⟩
  PriceChangePercentage30d : Float64 := ⟨0⟩
  MarketCapChange24h : Float64 := ⟨0⟩
  MarketCapChangePercentage24h : Float64 := ⟨0⟩
  CirculatingSupply : Float64 := ⟨0⟩
  TotalSupply : Float64 := ⟨0⟩
  MaxSupply : Float64 := ⟨0⟩
deriving DecidableEq, Repr

/-- `models.Links`. -/
structure Links where
  Homepage : List String := []
  BlockchainSite : List String := []
  Forum : List String := []
  Chat : List String := []
  Announcement : List String := []
  Twitter : String := ""
  Facebook : String := ""
  Telegram : String := ""
  Reddit : String := ""
  Github : List String := []
deriving DecidableEq, Repr

/-- `models.CoinDetails`. -/
structure CoinDetails where
  ID : String := ""
  Symbol : String := ""
  Name : String := ""
  Description : String := ""
  Image : String := ""
  MarketData : MarketData := {}
  Links : Links := {}
  Categories : List String := []
  LastUpdated : Time := time.zeroTime
  Source : String := ""
deriving DecidableEq, Repr

/-- `models.HistoricalData` of `crypto.go`: series of `[timestamp, value]` pairs. -/
structure HistoricalData where
  ID : String := ""
  Symbol : String := ""
  Prices : List (Float64 × Float64) := []
  MarketCaps : List (Float64 × Float64) := []
  Volumes : List (Float64 × Float64) := []
  Source : String := ""
deriving DecidableEq, Repr

/-- `models.GlobalMarketData`. -/
structure GlobalMarketData where
  ActiveCryptocurrencies : Int := 0
  UpcomingICOs : Int := 0
  OngoingICOs : Int := 0
  EndedICOs : Int := 0
  Markets : Int := 0
  TotalMarketCap : List (String × Float64) := []
  TotalVolume : List (String × Float64) := []
  MarketCapPercentage : List (String × Float64) := []
  MarketCapChangePercentage24hUSD : Float64 := ⟨0⟩
  UpdatedAt : Time := time.zeroTime
  Source : String := ""
deriving DecidableEq, Repr

/-- The interface `models.CryptoRepository`, as the answers the store gives
during one call of the service: the return pair of each read method and the
error returned by each `Save*` method.  The `Save*` methods are only called from
goroutines the service spawns and does not wait for. -/
structure CryptoRepository where
  GetMarketData : String → Int → Int → List String → Res (List CryptoData)
  GetCoinDetails : String → Res (Option CoinDetails)
  GetGlobalMarketData : Res (Option GlobalMarketData)
  GetHistoricalData : String → String → Int → Res (Option HistoricalData)
  SaveMarketData : List CryptoData → Option String
  SaveCoinDetails : CoinDetails → Option String
  SaveHistoricalData : HistoricalData → Option String
  SaveGlobalMarketData : GlobalMarketData → Option String

end models

/-! ## Package `pkg/client` -/

namespace client

/-- What the row callback of `GetMarketData` extracts from one table row: the
nine fields it assigns (each left at its zero value when the cell is missing or
does not parse). -/
structure Row where
  ID : String := ""
  Name : String := ""
  Symbol : String := ""
  Image : String := ""
  CurrentPrice : Float64 := ⟨0⟩
  PriceChangePercentage24h : Float64 := ⟨0⟩
  TotalVolume : Float64 := ⟨0⟩
  MarketCap : Float64 := ⟨0⟩
  MarketCapRank : Int := 0
deriving DecidableEq, Repr

/-- The record the row callback builds: `models.CryptoData{Source: source}` with
the extracted fields assigned; every other field keeps its zero value. -/
def Row.toCryptoData (row : Row) (source : String) : models.CryptoData :=
  { ID := row.ID, Name := row.Name, Symbol := row.Symbol, Image := row.Image,
    CurrentPrice := row.CurrentPrice,
    PriceChangePercentage24h := row.PriceChangePercentage24h,
    TotalVolume := row.TotalVolume, MarketCap := row.MarketCap,
    MarketCapRank := row.MarketCapRank, Source := source }

/-- What `s.client.Get(url)` followed by `goquery.NewDocumentFromReader` yields:
a transport failure, a status other than 200, an unparsable body, or a document,
given by its table rows in document order. -/
inductive Page where
  | unreachable (err : String)
  | badStatus (code : Int)
  | parseFailure (err : String)
  | document (rows : List Row)
deriving DecidableEq, Repr

/-- `CoinGeckoScraper`: its base URL and the answers of the remote site.  The
bodies of `GetCoinDetails`, `GetHistoricalData` and `GetGlobalMarketData` are
page extraction; their return pairs are taken as given. -/
structure CoinGeckoScraper where
  baseURL : String := "https://www.coingecko.com"
  get : String → Page
  GetCoinDetails : String → Res (Option models.CoinDetails)
  GetHistoricalData : String → String → Int → Res (Option models.HistoricalData)
  GetGlobalMarketData : Res (Option models.GlobalMarketData)

/-- `CoinMarketCapScraper`, modelled like `CoinGeckoScraper`. -/
structure CoinMarketCapScraper where
  baseURL : String := "https://coinmarketcap.com"
  get : String → Page
  GetCoinDetails : String → Res (Option models.CoinDetails)
  GetHistoricalData : String → String → Int → Res (Option models.HistoricalData)
  GetGlobalMarketData : Res (Option models.GlobalMarketData)

/-- The records appended by the table walk: those built from the rows with
index below `limit` that have a non-empty `ID`. -/
def keptRows (source : String) (rows : List Row) (limit : Int) : List models.CryptoData :=
  ((rows.take limit.toNat).map (fun row => row.toCryptoData source)).filter
    (fun crypto => crypto.ID ≠ "")

/-- `CoinGeckoScraper.GetMarketData(limit)`. -/
def CoinGeckoScraper.GetMarketData (s : CoinGeckoScraper) (limit : Int) :
    Res (List models.CryptoData) :=
  let limit := if limit ≤ 0 then 100 else limit
  let url := s.baseURL ++ "/en"
  match s.get url with
  | .unreachable err => ⟨[], some ("erro ao acessar CoinGecko: " ++ err)⟩
  | .badStatus code => ⟨[], some ("status code inválido: " ++ toString code)⟩
  | .parseFailure err => ⟨[], some ("erro ao parsear HTML: " ++ err)⟩
  | .document rows =>
    let cryptos := keptRows "coingecko" rows limit
    if cryptos.length = 0 then ⟨[], some "nenhum dado de criptomoeda encontrado"⟩
    else ⟨cryptos, none⟩

/-- `CoinMarketCapScraper.GetMarketData(limit)`. -/
def CoinMarketCapScraper.GetMarketData (s : CoinMarketCapScraper) (limit : Int) :
    Res (List models.CryptoData) :=
  let limit := if limit ≤ 0 then 100 else limit
  let url := s.baseURL ++ "/?limit=" ++ toString limit
  match s.get url with
  | .unreachable err => ⟨[], some ("erro ao acessar CoinMarketCap: " ++ err)⟩
  | .badStatus code => ⟨[], some ("status code inválido: " ++ toString code)⟩
  | .parseFailure err => ⟨[], some ("erro ao parsear HTML: " ++ err)⟩
  | .document rows =>
    let cryptos := keptRows "coinmarketcap" rows limit
    if cryptos.length = 0 then ⟨[], some "nenhum dado de criptomoeda encontrado"⟩
    else ⟨cryptos, none⟩

end client

/-! ## Package `fmt`: the verbs used to build cache keys and error texts -/

namespace fmt

/-- `%d` of an `int`. -/
def d (n : Int) : String := toString n

/-- `%v` of a `[]string` (and of a `[]error`, each shown by its text). -/
def vStrings (xs : List String) : String := "[" ++ " ".intercalate xs ++ "]"

/-- `%v` of an `error`, nil included. -/
def vError (e : Option String) : String :=
  match e with
  | none => "<nil>"
  | some msg => msg

end fmt

/-! ## Package `internal/storage/inmemory` -/

namespace inmemory

/-- `inmemory.CryptoRepository`: three maps keyed by id and the global record. -/
structure CryptoRepository where
  marketData : String → Option models.CryptoData
  coinDetails : String → Option models.CoinDetails
  historicalData : String → Option models.HistoricalData
  globalData : Option models.GlobalMarketData

/-- `NewCryptoRepository`. -/
def NewCryptoRepository : CryptoRepository :=
  { marketData := fun _ => none, coinDetails := fun _ => none,
    historicalData := fun _ => none, globalData := none }

/-- `sort.Slice(data, less)` with `less` comparing `MarketCapRank`, known by its
contract only: the result is a permutation of the input, ordered so that no
record has a rank below that of an earlier one.  The order of records of equal
rank is not determined (the sort is not stable). -/
structure RankSort where
  run : List models.CryptoData → List models.CryptoData
  perm : ∀ data, (run data).Perm data
  sorted : ∀ data, (run data).Pairwise (fun a b => a.MarketCapRank ≤ b.MarketCapRank)

/-- One sort meeting the contract: insertion sort. -/
def insertionRankSort : RankSort :=
  { run := fun data =>
      data.insertionSort (fun a b => a.MarketCapRank ≤ b.MarketCapRank),
    perm := fun data => List.perm_insertionSort _ data,
    sorted := fun data =>
      have _total : IsTotal models.CryptoData (fun a b => a.MarketCapRank ≤ b.MarketCapRank) :=
        ⟨fun a b => le_total a.MarketCapRank b.MarketCapRank⟩
      have _trans : IsTrans models.CryptoData (fun a b => a.MarketCapRank ≤ b.MarketCapRank) :=
        ⟨fun _ _ _ hab hbc => le_trans hab hbc⟩
      List.sorted_insertionSort _ data }

/-- The keys `visit` are those of the map `m`, each once: a possible order in
which `range m` visits it. -/
def Enumerates {V : Type} (visit : List String) (m : String → Option V) : Prop :=
  visit.Nodup ∧ ∀ k, k ∈ visit ↔ (m k).isSome = true

/-- `CryptoRepository.GetMarketData`, where `visit` is the order in which the
`range` loop visits the keys of `marketData` (so `len(r.marketData)` is its
length) and `sort` is the behaviour of `sort.Slice`.  Indices are Go `int`s;
`none` is the runtime panic of the slice expression `data[start:end]` when its
bounds are out of range. -/
def CryptoRepository.GetMarketData (r : CryptoRepository) (visit : List String)
    (sort : RankSort) (_currency : String) (limit page : Int) (ids : List String) :
    Option (Res (List models.CryptoData)) :=
  if visit.length = 0 then some ⟨[], some "nenhum dado de mercado disponível"⟩
  else
    let data := if ids.length > 0 then ids.filterMap r.marketData
      else visit.filterMap r.marketData
    let data := sort.run data
    let limit := if limit ≤ 0 then 100 else limit
    let page := if page ≤ 0 then 1 else page
    let start := time.wrapInt64 ((page - 1) * limit)
    let stop := time.wrapInt64 (start + limit)
    if start ≥ data.length then some ⟨[], none⟩
    else
      let stop := if stop > data.length then (data.length : Int) else stop
      if 0 ≤ start ∧ start ≤ stop then
        some ⟨(data.drop start.toNat).take (stop - start).toNat, none⟩
      else none

/-- `CryptoRepository.GetCoinDetails` when the clock reads `now`. -/
def CryptoRepository.GetCoinDetails (r : CryptoRepository) (now : Time) (id : String) :
    Res (Option models.CoinDetails) :=
  match r.coinDetails id with
  | none => ⟨none, some "detalhes da moeda não encontrados"⟩
  | some details =>
    if time.Since now details.LastUpdated > 1 * time.Hour then
      ⟨none, some "detalhes da moeda estão desatualizados"⟩
    else ⟨some details, none⟩

/-- `CryptoRepository.GetHistoricalData`. -/
def CryptoRepository.GetHistoricalData (r : CryptoRepository) (id _currency : String)
    (_days : Int) : Res (Option models.HistoricalData) :=
  match r.historicalData id with
  | none => ⟨none, some "dados históricos não encontrados"⟩
  | some data => ⟨some data, none⟩

/-- `CryptoRepository.GetGlobalMarketData` when the clock reads `now`. -/
def CryptoRepository.GetGlobalMarketData (r : CryptoRepository) (now : Time) :
    Res (Option models.GlobalMarketData) :=
  match r.globalData with
  | none => ⟨none, some "dados globais não encontrados"⟩
  | some globalData =>
    if time.Since now globalData.UpdatedAt > 1 * time.Hour then
      ⟨none, some "dados globais estão desatualizados"⟩
    else ⟨some globalData, none⟩

/-- One turn of the loop of `SaveMarketData`. -/
def CryptoRepository.saveCrypto (r : CryptoRepository) (crypto : models.CryptoData) :
    CryptoRepository :=
  match r.marketData crypto.ID with
  | some existing =>
    if time.After crypto.LastUpdated existing.LastUpdated then
      { r with marketData := Function.update r.marketData crypto.ID (some crypto) }
    else r
  | none => { r with marketData := Function.update r.marketData crypto.ID (some crypto) }

/-- `CryptoRepository.SaveMarketData`: the store afterwards and the returned error. -/
def CryptoRepository.SaveMarketData (r : CryptoRepository) (data : List models.CryptoData) :
    CryptoRepository × Option String :=
  (data.foldl CryptoRepository.saveCrypto r, none)

/-- `CryptoRepository.SaveCoinDetails` (called with a non-nil pointer). -/
def CryptoRepository.SaveCoinDetails (r : CryptoRepository) (data : models.CoinDetails) :
    CryptoRepository × Option String :=
  match r.coinDetails data.ID with
  | some existing =>
    if time.After data.LastUpdated existing.LastUpdated then
      ({ r with coinDetails := Function.update r.coinDetails data.ID (some data) }, none)
    else (r, none)
  | none => ({ r with coinDetails := Function.update r.coinDetails data.ID (some data) }, none)

/-- `CryptoRepository.SaveHistoricalData`. -/
def CryptoRepository.SaveHistoricalData (r : CryptoRepository) (data : models.HistoricalData) :
    CryptoRepository × Option String :=
  ({ r with historicalData := Function.update r.historicalData data.ID (some data) }, none)

/-- `CryptoRepository.SaveGlobalMarketData`. -/
def CryptoRepository.SaveGlobalMarketData (r : CryptoRepository)
    (data : models.GlobalMarketData) : CryptoRepository × Option String :=
  match r.globalData with
  | some globalData =>
    if time.Before data.UpdatedAt globalData.UpdatedAt then (r, none)
    else ({ r with globalData := some data }, none)
  | none => ({ r with globalData := some data }, none)

end inmemory

/-! ## Package `internal/services/market` -/

namespace market

/-- The dynamic values the service puts into its cache (`interface{}`), which are
also the arguments of the four `Save*` calls it hands to a goroutine. -/
inductive Payload where
  | marketData (d : List models.CryptoData)
  | coinDetails (d : models.CoinDetails)
  | historicalData (d : models.HistoricalData)
  | globalMarketData (d : models.GlobalMarketData)
deriving DecidableEq, Repr

/-- `cacheItem`. -/
structure cacheItem where
  data : Payload
  timestamp : Time
  expiry : Duration
deriving DecidableEq, Repr

/-- `market.Service` (the mutex is not modelled: `isCacheValid`, `getCache` and
`setCache` each run atomically under it). -/
structure Service where
  repo : models.CryptoRepository
  coinMarketCap : client.CoinMarketCapScraper
  coinGecko : client.CoinGeckoScraper
  cache : String → Option cacheItem
  lastGlobalUpdate : Time := time.zeroTime

/-- The two provider clients. -/
inductive Provider where
  | CoinMarketCap
  | CoinGecko
deriving DecidableEq, Repr

/-- The four read methods of the store. -/
inductive StoreCall where
  | GetMarketData
  | GetCoinDetails
  | GetHistoricalData
  | GetGlobalMarketData
deriving DecidableEq, Repr

/-- What one call leaves behind: the returned pair, the cache afterwards, the
provider clients invoked (in program order), the store lookups made and the
`Save*` call spawned. -/
structure Ret (α : Type) where
  val : α
  err : Option String
  cache : String → Option cacheItem
  calls : List Provider
  reads : List StoreCall
  saved : Option Payload

/-- `Service.isCacheValid` when the clock reads `now`. -/
def Service.isCacheValid (s : Service) (now : Time) (key : String) : Bool :=
  match s.cache key with
  | none => false
  | some item => decide (time.Since now item.timestamp < item.expiry)

/-- `Service.setCache` when the clock reads `now`: the cache map afterwards. -/
def Service.setCache (s : Service) (now : Time) (key : String) (data : Payload)
    (expiry : Duration) : String → Option cacheItem :=
  Function.update s.cache key (some { data := data, timestamp := now, expiry := expiry })

/-- `Service.getCache`: `(nil, false)` is `(none, false)`. -/
def Service.getCache (s : Service) (key : String) : Option Payload × Bool :=
  match s.cache key with
  | none => (none, false)
  | some item => (some item.data, true)

/-- The cache key of `GetMarketData`:
`fmt.Sprintf("market_data_%s_%d_%d_%v", currency, limit, page, ids)`. -/
def marketDataKey (currency : String) (limit page : Int) (ids : List String) : String :=
  "market_data_" ++ currency ++ "_" ++ fmt.d limit ++ "_" ++ fmt.d page ++ "_" ++ fmt.vStrings ids

/-- The cache key of `GetCoinDetails`: `fmt.Sprintf("coin_details_%s", id)`. -/
def coinDetailsKey (id : String) : String := "coin_details_" ++ id

/-- The cache key of `GetHistoricalData`:
`fmt.Sprintf("historical_data_%s_%s_%d", id, currency, days)`. -/
def historicalDataKey (id currency : String) (days : Int) : String :=
  "historical_data_" ++ id ++ "_" ++ currency ++ "_" ++ fmt.d days

/-- The cache key of `GetGlobalMarketData`. -/
def globalMarketDataKey : String := "global_market_data"

/-- The guard `err == nil && x != nil` on a pointer result. -/
def found {α : Type} (r : Res (Option α)) : Option α :=
  match r.err, r.val with
  | none, some x => some x
  | _, _ => none

/-- The guard `err == nil && historicalData != nil && len(historicalData.Prices) > 0`. -/
def foundHistory (r : Res (Option models.HistoricalData)) : Option models.HistoricalData :=
  match r.err, r.val with
  | none, some x => if x.Prices.length > 0 then some x else none
  | _, _ => none

/-- The tail of one fetch goroutine of `GetMarketData`, run under the local
mutex: record the error, or append the items. -/
def collect (acc : List models.CryptoData × List String) (r : Res (List models.CryptoData)) :
    List models.CryptoData × List String :=
  match r.err with
  | some err => (acc.1, acc.2 ++ [err])
  | none => (acc.1 ++ r.val, acc.2)

/-- The ordered-fallback contract between the outcomes of the two attempts
(`cg` for CoinGecko, `cmc` for CoinMarketCap; `some d` is a success with the
non-empty payload `d`, `none` a failure or an empty result) and what the call
leaves behind: CoinGecko's payload is returned without invoking CoinMarketCap
when CoinGecko succeeds; otherwise CoinMarketCap is invoked after CoinGecko and
its payload is returned when it succeeds; and the call returns an error exactly
when both attempts failed. -/
def OrderedFallback {α : Type} (cg cmc : Option α) (ret : Ret (Option α)) : Prop :=
  (∀ d, cg = some d →
    ret.val = some d ∧ ret.err = none ∧ ret.calls = [Provider.CoinGecko]) ∧
  (cg = none → ret.calls = [Provider.CoinGecko, Provider.CoinMarketCap]) ∧
  (cg = none → ∀ d, cmc = some d → ret.val = some d ∧ ret.err = none) ∧
  (ret.err ≠ none ↔ (cg = none ∧ cmc = none))

/-- The item list a provider contributes: its items when it returned a nil
error, nothing when it failed. -/
def succeededItems (r : Res (List models.CryptoData)) : List models.CryptoData :=
  match r.err with
  | none => r.val
  | some _ => []

/-- `Service.GetMarketData` when the clock reads `now`.  Both fetch goroutines
always run; `cmcFirst` tells whether the CoinMarketCap goroutine takes the local
mutex before the CoinGecko one.  `none` is a panic of the type assertion. -/
def Service.GetMarketData (s : Service) (now : Time) (cmcFirst : Bool) (currency : String)
    (limit page : Int) (ids : List String) : Option (Ret (List models.CryptoData)) :=
  let cacheKey := marketDataKey currency limit page ids
  match (if s.isCacheValid now cacheKey then s.getCache cacheKey else (none, false)) with
  | (some (.marketData data), true) =>
    some { val := data, err := none, cache := s.cache, calls := [], reads := [], saved := none }
  | (_, true) => none
  | (_, false) =>
    let data := s.repo.GetMarketData currency limit page ids
    if data.err = none ∧ data.val.length > 0 then
      some { val := data.val, err := none,
             cache := s.setCache now cacheKey (.marketData data.val) (5 * time.Minute),
             calls := [], reads := [.GetMarketData], saved := none }
    else
      let cmcData := s.coinMarketCap.GetMarketData limit
      let cgData := s.coinGecko.GetMarketData limit
      let merged := (if cmcFirst then [cmcData, cgData] else [cgData, cmcData]).foldl collect ([], [])
      let marketData := merged.1
      let errors := merged.2
      if marketData.length = 0 then
        some { val := [], err := some ("não foi possível obter dados de mercado: " ++ fmt.vStrings errors),
               cache := s.cache, calls := [.CoinMarketCap, .CoinGecko],
               reads := [.GetMarketData], saved := none }
      else
        some { val := marketData, err := none,
               cache := s.setCache now cacheKey (.marketData marketData) (5 * time.Minute),
               calls := [.CoinMarketCap, .CoinGecko],
               reads := [.GetMarketData], saved := some (.marketData marketData) }

/-- `Service.GetCoinDetails` when the clock reads `now`. -/
def Service.GetCoinDetails (s : Service) (now : Time) (id : String) :
    Option (Ret (Option models.CoinDetails)) :=
  let cacheKey := coinDetailsKey id
  match (if s.isCacheValid now cacheKey then s.getCache cacheKey else (none, false)) with
  | (some (.coinDetails data), true) =>
    some { val := some data, err := none, cache := s.cache, calls := [],
           reads := [], saved := none }
  | (_, true) => none
  | (_, false) =>
    match found (s.repo.GetCoinDetails id) with
    | some details =>
      some { val := some details, err := none,
             cache := s.setCache now cacheKey (.coinDetails details) (10 * time.Minute),
             calls := [], reads := [.GetCoinDetails], saved := none }
    | none =>
      match found (s.coinGecko.GetCoinDetails id) with
      | some coinDetails =>
        some { val := some coinDetails, err := none,
               cache := s.setCache now cacheKey (.coinDetails coinDetails) (10 * time.Minute),
               calls := [.CoinGecko],
               reads := [.GetCoinDetails], saved := some (.coinDetails coinDetails) }
      | none =>
        let r := s.coinMarketCap.GetCoinDetails id
        match found r with
        | some coinDetails =>
          some { val := some coinDetails, err := none,
                 cache := s.setCache now cacheKey (.coinDetails coinDetails) (10 * time.Minute),
                 calls := [.CoinGecko, .CoinMarketCap],
                 reads := [.GetCoinDetails], saved := some (.coinDetails coinDetails) }
        | none =>
          some { val := none,
                 err := some ("não foi possível obter detalhes da moeda: " ++ fmt.vError r.err),
                 cache := s.cache, calls := [.CoinGecko, .CoinMarketCap],
                 reads := [.GetCoinDetails], saved := none }

/-- `Service.GetHistoricalData` when the clock reads `now`. -/
def Service.GetHistoricalData (s : Service) (now : Time) (id currency : String) (days : Int) :
    Option (Ret (Option models.HistoricalData)) :=
  let cacheKey := historicalDataKey id currency days
  match (if s.isCacheValid now cacheKey then s.getCache cacheKey else (none, false)) with
  | (some (.historicalData data), true) =>
    some { val := some data, err := none, cache := s.cache, calls := [],
           reads := [], saved := none }
  | (_, true) => none
  | (_, false) =>
    match foundHistory (s.repo.GetHistoricalData id currency days) with
    | some historicalData =>
      some { val := some historicalData, err := none,
             cache := s.setCache now cacheKey (.historicalData historicalData) (1 * time.Hour),
             calls := [], reads := [.GetHistoricalData], saved := none }
    | none =>
      match foundHistory (s.coinGecko.GetHistoricalData id currency days) with
      | some historicalData =>
        some { val := some historicalData, err := none,
               cache := s.setCache now cacheKey (.historicalData historicalData) (1 * time.Hour),
               calls := [.CoinGecko],
               reads := [.GetHistoricalData], saved := some (.historicalData historicalData) }
      | none =>
        let r := s.coinMarketCap.GetHistoricalData id currency days
        match foundHistory r with
        | some historicalData =>
          some { val := some historicalData, err := none,
                 cache := s.setCache now cacheKey (.historicalData historicalData) (1 * time.Hour),
                 calls := [.CoinGecko, .CoinMarketCap],
                 reads := [.GetHistoricalData], saved := some (.historicalData historicalData) }
        | none =>
          some { val := none,
                 err := some ("não foi possível obter dados históricos: " ++ fmt.vError r.err),
                 cache := s.cache, calls := [.CoinGecko, .CoinMarketCap],
                 reads := [.GetHistoricalData], saved := none }

/-- `Service.GetGlobalMarketData` when the clock reads `now`. -/
def Service.GetGlobalMarketData (s : Service) (now : Time) :
    Option (Ret (Option models.GlobalMarketData)) :=
  let cacheKey := globalMarketDataKey
  match (if s.isCacheValid now cacheKey then s.getCache cacheKey else (none, false)) with
  | (some (.globalMarketData data), true) =>
    some { val := some data, err := none, cache := s.cache, calls := [],
           reads := [], saved := none }
  | (_, true) => none
  | (_, false) =>
    match found s.repo.GetGlobalMarketData with
    | some globalData =>
      some { val := some globalData, err := none,
             cache := s.setCache now cacheKey (.globalMarketData globalData) (15 * time.Minute),
             calls := [], reads := [.GetGlobalMarketData], saved := none }
    | none =>
      match found s.coinGecko.GetGlobalMarketData with
      | some globalMarketData =>
        some { val := some globalMarketData, err := none,
               cache := s.setCache now cacheKey (.globalMarketData globalMarketData)
                 (15 * time.Minute),
               calls := [.CoinGecko],
               reads := [.GetGlobalMarketData], saved := some (.globalMarketData globalMarketData) }
      | none =>
        let r := s.coinMarketCap.GetGlobalMarketData
        match found r with
        | some globalMarketData =>
          some { val := some globalMarketData, err := none,
                 cache := s.setCache now cacheKey (.globalMarketData globalMarketData)
                   (15 * time.Minute),
                 calls := [.CoinGecko, .CoinMarketCap],
                 reads := [.GetGlobalMarketData], saved := some (.globalMarketData globalMarketData) }
        | none =>
          some { val := none,
                 err := some ("não foi possível obter dados globais: " ++ fmt.vError r.err),
                 cache := s.cache, calls := [.CoinGecko, .CoinMarketCap],
                 reads := [.GetGlobalMarketData], saved := none }

/-- The first letter of the cache key of the operation that stores a payload of
this dynamic type: `m`arket_data_, `c`oin_details_, `h`istorical_data_,
`g`lobal_market_data. -/
def Payload.tag : Payload → Char
  | .marketData _ => 'm'
  | .coinDetails _ => 'c'
  | .historicalData _ => 'h'
  | .globalMarketData _ => 'g'

/-- A cache map is well typed when the value stored under every key has the
dynamic type of the operation whose keys start with the first letter of that
key. -/
def WellTyped (cache : String → Option cacheItem) : Prop :=
  ∀ key item, cache key = some item → key.data.head? = some item.data.tag

/-- The body of the goroutine spawned after a live fetch: the `Save*` call on
the store for the fetched payload.  Its error goes to the log only; the result
is the line logged, if any. -/
def Service.persist (s : Service) (p : Payload) : Option String :=
  match p with
  | .marketData d =>
    (s.repo.SaveMarketData d).map (fun err => "Erro ao salvar dados de mercado: " ++ err)
  | .coinDetails d =>
    (s.repo.SaveCoinDetails d).map (fun err => "Erro ao salvar detalhes da moeda: " ++ err)
  | .historicalData d =>
    (s.repo.SaveHistoricalData d).map (fun err => "Erro ao salvar dados históricos: " ++ err)
  | .globalMarketData d =>
    (s.repo.SaveGlobalMarketData d).map (fun err => "Erro ao salvar dados globais: " ++ err)

/-- The cache maps a service can hold: the empty map made by `NewService`, and
the map left by any of the four operations run on a service holding a reachable
map (whatever its store and providers answer, at whatever time). -/
inductive CacheReachable : (String → Option cacheItem) → Prop where
  | init : CacheReachable (fun _ => none)
  | afterMarketData (s : Service) (now : Time) (cmcFirst : Bool) (currency : String)
      (limit page : Int) (ids : List String) (ret : Ret (List models.CryptoData)) :
      CacheReachable s.cache →
      s.GetMarketData now cmcFirst currency limit page ids = some ret →
      CacheReachable ret.cache
  | afterCoinDetails (s : Service) (now : Time) (id : String)
      (ret : Ret (Option models.CoinDetails)) :
      CacheReachable s.cache → s.GetCoinDetails now id = some ret → CacheReachable ret.cache
  | afterHistoricalData (s : Service) (now : Time) (id currency : String) (days : Int)
      (ret : Ret (Option models.HistoricalData)) :
      CacheReachable s.cache → s.GetHistoricalData now id currency days = some ret →
      CacheReachable ret.cache
  | afterGlobalMarketData (s : Service) (now : Time)
      (ret : Ret (Option models.GlobalMarketData)) :
      CacheReachable s.cache → s.GetGlobalMarketData now = some ret →
      CacheReachable ret.cache

end market

/-! ## Package `internal/services/scraper`: the scraper service -/

namespace scraper

/-- `scraper.CryptoData`. -/
structure CryptoData where
  ID : String := ""
  Symbol : String := ""
  Name : String := ""
  CurrentPrice : Float64 := ⟨0⟩
  MarketCap : Float64 := ⟨0⟩
  MarketCapRank : Int := 0
  TotalVolume : Float64 := ⟨0⟩
  High24h : Float64 := ⟨0⟩
  Low24h : Float64 := ⟨0⟩
  PriceChange24h : Float64 := ⟨0⟩
  PriceChangePercent : Float64 := ⟨0⟩
  ATH : Float64 := ⟨0⟩
  ATHChangePercent : Float64 := ⟨0⟩
  LastUpdated : String := ""
deriving DecidableEq, Repr

/-- The dynamic values held by the cache of the scraper service: a market
listing, or a value of one of the other Go types its operations store (named by
its type; `GetMarketData` never looks inside one). -/
inductive Value where
  | marketData (d : List CryptoData)
  | other (goType : String)
deriving DecidableEq, Repr

/-- The three upstream fetchers of `GetMarketData`, in the order it tries them. -/
inductive Fetcher where
  | CoinGecko
  | CryptoCompare
  | AlternativeMe
deriving DecidableEq, Repr

/-- `ScraperService`: its cache, and in place of `httpClient` the return pairs of
the three fetchers (HTTP request and JSON decoding, taken as given); in place of
`dataUpdateChan`, whether a subscriber is ready to receive. -/
structure ScraperService where
  cache : CacheService Value
  fetchCoinGeckoMarketData : Res (List CryptoData)
  fetchCryptoCompareMarketData : Res (List CryptoData)
  fetchAlternativeMeMarketData : Res (List CryptoData)
  subscriberReady : Bool

/-- What one call of `GetMarketData` leaves behind: the returned pair, the cache
afterwards, the fetchers invoked (in order) and the value sent to subscribers. -/
structure Ret where
  val : List CryptoData
  err : Option String
  cache : CacheService Value
  calls : List Fetcher
  sent : Option (List CryptoData)

/-- The part of `GetMarketData` after a successful fetch: fill the cache for 15
minutes, offer the data to subscribers without blocking, return it. -/
def ScraperService.deliver (s : ScraperService) (now : Time) (data : List CryptoData)
    (calls : List Fetcher) : Ret :=
  { val := data, err := none,
    cache := s.cache.Set now "market_data" (.marketData data) (15 * time.Minute),
    calls := calls,
    sent := if s.subscriberReady then some data else none }

/-- `ScraperService.GetMarketData` when the clock reads `now`; `none` is a panic
of the type assertion on the cached value. -/
def ScraperService.GetMarketData (s : ScraperService) (now : Time) : Option Ret :=
  let cacheKey := "market_data"
  match s.cache.Get now cacheKey with
  | (some (.marketData cachedData), true) =>
    some { val := cachedData, err := none, cache := s.cache, calls := [], sent := none }
  | (_, true) => none
  | (_, false) =>
    let r1 := s.fetchCoinGeckoMarketData
    match r1.err with
    | none => some (s.deliver now r1.val [.CoinGecko])
    | some _ =>
      let r2 := s.fetchCryptoCompareMarketData
      match r2.err with
      | none => some (s.deliver now r2.val [.CoinGecko, .CryptoCompare])
      | some _ =>
        let r3 := s.fetchAlternativeMeMarketData
        match r3.err with
        | none => some (s.deliver now r3.val [.CoinGecko, .CryptoCompare, .AlternativeMe])
        | some err =>
          some { val := [], err := some ("todos os serviços de dados falharam: " ++ err),
                 cache := s.cache, calls := [.CoinGecko, .CryptoCompare, .AlternativeMe],
                 sent := none }

end scraper

/-! ## The TTL cache as a state machine -/

namespace scraper

/-- The four operations on a `CacheService`. -/
inductive CacheOp (V : Type) where
  | Set (key : String) (value : V) (duration : Duration)
  | Get (key : String)
  | Delete (key : String)
  | deleteExpired

/-- A cache together with, for bookkeeping only, the instant at which the entry
stored under each key was created (a `CacheItem` does not record it). -/
structure Tracked (V : Type) where
  cache : CacheService V
  created : String → Option Time

/-- The state made by `NewCacheService`. -/
def Tracked.empty {V : Type} : Tracked V :=
  { cache := CacheService.empty, created := fun _ => none }

/-- One operation performed when the clock reads `now`. -/
def Tracked.step {V : Type} (s : Tracked V) (now : Time) : CacheOp V → Tracked V
  | .Set key value duration =>
    { cache := s.cache.Set now key value duration,
      created := Function.update s.created key (some now) }
  | .Get _ => s
  | .Delete key =>
    { cache := s.cache.Delete key, created := Function.update s.created key none }
  | .deleteExpired => { cache := s.cache.deleteExpired now, created := s.created }

/-- A sequence of operations, each with the clock reading at which it runs. -/
def Tracked.run {V : Type} (s : Tracked V) (ops : List (Time × CacheOp V)) : Tracked V :=
  ops.foldl (fun st p => st.step p.1 p.2) s

/-- Every stored entry expires strictly later than the instant it was created. -/
def Tracked.ExpiresAfterCreation {V : Type} (s : Tracked V) : Prop :=
  ∀ key item, s.cache.items key = some item →
    ∃ t, s.created key = some t ∧ time.UnixNano t < item.Expiration

end scraper

/-! ## Package `internal/services/scheduler` -/

namespace time

/-- A `*time.Location`, given by how it converts an instant to civil time (the
nanoseconds elapsed on the local calendar and wall clock) and how `time.Date`
resolves a civil time back to an instant. -/
structure Location where
  toCivil : Time → Int
  fromCivil : Int → Time

/-- `time.UTC`. -/
def UTC : Location := { toCivil := fun t => t, fromCivil := fun c => c }

/-- `t.AddDate(0, 0, days)` for a time in location `loc`: the same wall clock
`days` calendar days later. -/
def AddDays (loc : Location) (t : Time) (days : Int) : Time :=
  loc.fromCivil (loc.toCivil t + days * (24 * Hour))

end time

namespace models

/-- `models.HistoricalData` of `historical_data.go`: one stored price sample. -/
structure HistoricalRecord where
  ID : Int := 0
  Symbol : String := ""
  Price : Float64 := ⟨0⟩
  Volume : Float64 := ⟨0⟩
  MarketCap : Float64 := ⟨0⟩
  Timestamp : Time := time.zeroTime
  CreatedAt : Time := time.zeroTime
deriving DecidableEq, Repr

end models

namespace scheduler

/-- The calls a scheduler job makes on its collaborators, and its pauses. -/
inductive Event where
  | GetMarketData
  | GetTechnicalAnalysis (symbol : String)
  | GetSentimentAnalysis (symbol : String)
  | SaveHistoricalData (data : List models.HistoricalRecord)
  | DeleteOldData (before : Time)
  | Sleep (d : Duration)
deriving DecidableEq, Repr

/-- What the scraper service answers to the scheduler, given the events so far:
the return pair of `GetMarketData` and the returned error of the two
per-symbol operations. -/
structure Scraper where
  GetMarketData : List Event → Res (List scraper.CryptoData)
  GetTechnicalAnalysis : List Event → String → Option String
  GetSentimentAnalysis : List Event → String → Option String

/-- The two methods of `models.HistoricalDataRepository` the scheduler calls, as
the error each returns given the events so far. -/
structure Repository where
  SaveHistoricalData : List Event → List models.HistoricalRecord → Option String
  DeleteOldData : List Event → Time → Option String

/-- `SchedulerService`: its two collaborators, and the clock and time zone of
the process.  `stopChan` is rendered by the `Signal`s a loop receives; log
output is not modelled. -/
structure SchedulerService where
  scraper : Scraper
  repository : Repository
  now : List Event → Time
  location : time.Location

/-- Which case of the `select` of a job loop fires: a tick of its ticker, or the
closing of `stopChan`. -/
inductive Signal where
  | tick
  | stop
deriving DecidableEq, Repr

/-- The loop `for { select { case <-ticker.C: job(); case <-s.stopChan: return } }`
run on the successive outcomes of its `select`, from the events so far: the
events afterwards, and whether the loop has returned (it is otherwise blocked in
`select`). -/
def selectLoop (job : List Event → List Event) : List Signal → List Event → List Event × Bool
  | [], w => (w, false)
  | .tick :: rest, w => selectLoop job rest (job w)
  | .stop :: _, w => (w, true)

/-- `SchedulerService.collectAndStoreMarketData`. -/
def SchedulerService.collectAndStoreMarketData (s : SchedulerService) (w : List Event) :
    List Event :=
  let r := s.scraper.GetMarketData w
  let w1 := w ++ [.GetMarketData]
  match r.err with
  | some _ => w1
  | none =>
    let now := s.now w1
    let historicalData := r.val.map (fun d =>
      ({ Symbol := d.Symbol, Price := d.CurrentPrice, Volume := d.TotalVolume,
         MarketCap := d.MarketCap, Timestamp := now, CreatedAt := now } :
        models.HistoricalRecord))
    w1 ++ [.SaveHistoricalData historicalData]

/-- `SchedulerService.calculateTechnicalIndicators`. -/
def SchedulerService.calculateTechnicalIndicators (s : SchedulerService)
    (symbols : List String) (w : List Event) : List Event :=
  symbols.foldl (fun w symbol =>
    let err := s.scraper.GetTechnicalAnalysis w symbol
    let w1 := w ++ [.GetTechnicalAnalysis symbol]
    match err with
    | some _ => w1
    | none => w1 ++ [.Sleep (5 * time.Second)]) w

/-- `SchedulerService.collectSentimentData`. -/
def SchedulerService.collectSentimentData (s : SchedulerService)
    (symbols : List String) (w : List Event) : List Event :=
  symbols.foldl (fun w symbol =>
    let err := s.scraper.GetSentimentAnalysis w symbol
    let w1 := w ++ [.GetSentimentAnalysis symbol]
    match err with
    | some _ => w1
    | none => w1 ++ [.Sleep (3 * time.Second)]) w

/-- `SchedulerService.cleanupOldData`. -/
def SchedulerService.cleanupOldData (s : SchedulerService) (w : List Event) : List Event :=
  let cutoffDate := time.AddDays s.location (s.now w) (-90)
  w ++ [.DeleteOldData cutoffDate]

/-- `SchedulerService.scheduleMarketDataCollection`. -/
def SchedulerService.scheduleMarketDataCollection (s : SchedulerService)
    (signals : List Signal) (w : List Event) : List Event × Bool :=
  selectLoop s.collectAndStoreMarketData signals (s.collectAndStoreMarketData w)

/-- `SchedulerService.scheduleTechnicalAnalysis`. -/
def SchedulerService.scheduleTechnicalAnalysis (s : SchedulerService)
    (signals : List Signal) (w : List Event) : List Event × Bool :=
  let symbols := ["BTC", "ETH", "BNB", "XRP", "ADA", "SOL", "DOGE", "DOT"]
  selectLoop (s.calculateTechnicalIndicators symbols) signals w

/-- `SchedulerService.scheduleSentimentAnalysis`. -/
def SchedulerService.scheduleSentimentAnalysis (s : SchedulerService)
    (signals : List Signal) (w : List Event) : List Event × Bool :=
  let symbols := ["BTC", "ETH", "BNB", "XRP", "ADA", "SOL", "DOGE", "DOT"]
  selectLoop (s.collectSentimentData symbols) signals w

/-- `SchedulerService.scheduleDataCleanup`. -/
def SchedulerService.scheduleDataCleanup (s : SchedulerService)
    (signals : List Signal) (w : List Event) : List Event × Bool :=
  selectLoop s.cleanupOldData signals w

/-- Whether an event is a per-symbol call on the scraper. -/
def Event.isSymbolCall : Event → Bool
  | .GetTechnicalAnalysis _ => true
  | .GetSentimentAnalysis _ => true
  | _ => false

/-- A trace is throttled by `d` when every per-symbol call that is followed by
another event is followed by a pause of `d`, so that a pause of `d` separates the
calls of any two consecutive symbols. -/
def Throttled (d : Duration) (w : List Event) : Prop :=
  ∀ pre a b post, w = pre ++ a :: b :: post → a.isSymbolCall = true → b = Event.Sleep d

end scheduler

/-! ## Concrete records, stores and services used to instantiate the theorems -/

namespace Sample

/-- The row for Bitcoin as the CoinMarketCap client builds it (no `LastUpdated`). -/
def cmcBitcoin : models.CryptoData :=
  { ID := "bitcoin", Symbol := "BTC", Name := "Bitcoin", MarketCapRank := 1,
    Source := "coinmarketcap" }

/-- The row for Bitcoin as the CoinGecko client builds it (no `LastUpdated`). -/
def cgBitcoin : models.CryptoData :=
  { ID := "bitcoin", Symbol := "btc", Name := "Bitcoin", MarketCapRank := 1,
    Source := "coingecko" }

/-- A market record stamped with time `T1 = 2000`, and an older one (`T0 = 1000`). -/
def marketT1 : models.CryptoData := { ID := "bitcoin", LastUpdated := 2000, Source := "coingecko" }
def marketT0 : models.CryptoData := { ID := "bitcoin", LastUpdated := 1000, Source := "coinmarketcap" }

/-- Details for "bitcoin" stamped `T1 = 2000`, and older ones (`T0 = 1000`). -/
def detailsT1 : models.CoinDetails := { ID := "bitcoin", LastUpdated := 2000, Source := "coingecko" }
def detailsT0 : models.CoinDetails := { ID := "bitcoin", LastUpdated := 1000, Source := "coinmarketcap" }

/-- A global record stamped `T1 = 2000`, and an older one (`T0 = 1000`). -/
def globalT1 : models.GlobalMarketData := { Markets := 10, UpdatedAt := 2000, Source := "coingecko" }
def globalT0 : models.GlobalMarketData := { Markets := 9, UpdatedAt := 1000, Source := "coinmarketcap" }

/-- A store holding the three `T1` records. -/
def storeT1 : inmemory.CryptoRepository :=
  { marketData := Function.update (fun _ => none) "bitcoin" (some marketT1),
    coinDetails := Function.update (fun _ => none) "bitcoin" (some detailsT1),
    historicalData := fun _ => none,
    globalData := some globalT1 }

/-- The answers of a store that holds nothing. -/
def emptyStore : models.CryptoRepository :=
  { GetMarketData := fun _ _ _ _ => ⟨[], some "nenhum dado de mercado disponível"⟩,
    GetCoinDetails := fun _ => ⟨none, some "detalhes da moeda não encontrados"⟩,
    GetGlobalMarketData := ⟨none, some "dados globais não encontrados"⟩,
    GetHistoricalData := fun _ _ _ => ⟨none, some "dados históricos não encontrados"⟩,
    SaveMarketData := fun _ => none,
    SaveCoinDetails := fun _ => none,
    SaveHistoricalData := fun _ => none,
    SaveGlobalMarketData := fun _ => none }

def cmcEthereum : models.CryptoData :=
  { ID := "ethereum", Symbol := "ETH", Name := "Ethereum", MarketCapRank := 2,
    Source := "coinmarketcap" }

def cmcRipple : models.CryptoData :=
  { ID := "ripple", Symbol := "XRP", Name := "XRP", MarketCapRank := 3,
    Source := "coinmarketcap" }

/-- A history with one price point. -/
def history : models.HistoricalData :=
  { ID := "bitcoin", Symbol := "btc", Prices := [(⟨1⟩, ⟨2⟩)], Source := "coingecko" }

/-- CoinMarketCap answering: a listing of three rows, and a payload for every
single-entity request. -/
def cmcUp : client.CoinMarketCapScraper :=
  { get := fun _ => .document
      [{ ID := "bitcoin", Symbol := "BTC", Name := "Bitcoin", MarketCapRank := 1 },
       { ID := "ethereum", Symbol := "ETH", Name := "Ethereum", MarketCapRank := 2 },
       { ID := "ripple", Symbol := "XRP", Name := "XRP", MarketCapRank := 3 }],
    GetCoinDetails := fun _ => ⟨some detailsT0, none⟩,
    GetHistoricalData := fun _ _ _ => ⟨some { history with Source := "coinmarketcap" }, none⟩,
    GetGlobalMarketData := ⟨some globalT0, none⟩ }

/-- CoinMarketCap failing every request. -/
def cmcDown : client.CoinMarketCapScraper :=
  { get := fun _ => .badStatus 403,
    GetCoinDetails := fun _ => ⟨none, some "status code inválido: 403"⟩,
    GetHistoricalData := fun _ _ _ => ⟨none, some "status code inválido: 403"⟩,
    GetGlobalMarketData := ⟨none, some "status code inválido: 403"⟩ }

/-- CoinGecko answering every request. -/
def cgUp : client.CoinGeckoScraper :=
  { get := fun _ => .document
      [{ ID := "bitcoin", Symbol := "btc", Name := "Bitcoin", MarketCapRank := 1 }],
    GetCoinDetails := fun _ => ⟨some detailsT1, none⟩,
    GetHistoricalData := fun _ _ _ => ⟨some history, none⟩,
    GetGlobalMarketData := ⟨some globalT1, none⟩ }

/-- CoinGecko failing every request. -/
def cgDown : client.CoinGeckoScraper :=
  { get := fun _ => .unreachable "timeout",
    GetCoinDetails := fun _ => ⟨none, some "erro ao acessar detalhes da moeda: timeout"⟩,
    GetHistoricalData := fun _ _ _ => ⟨none, some "erro ao acessar dados históricos: timeout"⟩,
    GetGlobalMarketData := ⟨none, some "erro ao acessar dados globais: timeout"⟩ }

/-- A fresh service over an empty store: only CoinMarketCap answers. -/
def svcCmcOnly : market.Service :=
  { repo := emptyStore, coinMarketCap := cmcUp, coinGecko := cgDown, cache := fun _ => none }

/-- A fresh service over an empty store: only CoinGecko answers. -/
def svcCgOnly : market.Service :=
  { repo := emptyStore, coinMarketCap := cmcDown, coinGecko := cgUp, cache := fun _ => none }

/-- Half an hour after `T1 = 2000`. -/
def halfHourLater : Time := 2000 + 30 * time.Minute

/-- A fresh service whose store answers the global lookup as the in-memory
repository `storeT1` does half an hour after `T1`; both providers answer. -/
def svcStoredGlobal : market.Service :=
  { repo := { emptyStore with GetGlobalMarketData := storeT1.GetGlobalMarketData halfHourLater },
    coinMarketCap := cmcUp, coinGecko := cgUp, cache := fun _ => none }

/-- A fresh service over an empty store with both providers failing. -/
def svcDown : market.Service :=
  { repo := emptyStore, coinMarketCap := cmcDown, coinGecko := cgDown, cache := fun _ => none }

/-- A scheduler whose scraper fails the technical analysis of "BTC" and answers
everything else; the process runs in UTC with a fixed clock reading. -/
def sched : scheduler.SchedulerService :=
  { scraper :=
      { GetMarketData := fun _ => ⟨[{ Symbol := "BTC" }], none⟩,
        GetTechnicalAnalysis := fun _ symbol =>
          if symbol = "BTC" then some "falha ao obter dados históricos: status inválido: 429"
          else none,
        GetSentimentAnalysis := fun _ _ => none },
    repository := { SaveHistoricalData := fun _ _ => none, DeleteOldData := fun _ _ => none },
    now := fun _ => 1700000000000000000,
    location := time.UTC }

end Sample

/-! ## Theorems -/

namespace scraper

theorem get_after_set_aux {V : Type} (c : CacheService V) (k : String) (v : V) (t ttl : Int)
    (hlo : -9223372036854775808 ≤ t) (h0 : 0 ≤ ttl)
    (hhi : t + ttl ≤ 9223372036854775807) :
    (c.Set t k v ttl).Get t k = (some v, true) := by
  simp only [CacheService.Get, CacheService.Set, time.UnixNano, time.Add, time.wrapInt64,
    Function.update_same]
  split
  · rename_i h
    exfalso
    omega
  · rfl

theorem get_not_found_iff {V : Type} (c : CacheService V) (now : Time) (k : String) :
    (c.Get now k).2 = false ↔
      (c.items k = none ∨ ∃ item, c.items k = some item ∧ time.UnixNano now > item.Expiration) := by
  unfold CacheService.Get
  cases h : c.items k with
  | none => simp
  | some item =>
    by_cases hexp : time.UnixNano now > item.Expiration
    · simp [hexp]
    · simp [hexp]

theorem get_after_set_elapsed {V : Type} (c : CacheService V) (k : String) (v : V)
    (t ttl t' : Int) (hlo : -9223372036854775808 ≤ t + ttl)
    (hhi : t' ≤ 9223372036854775807) (hel : t' - t > ttl) :
    (c.Set t k v ttl).Get t' k = (none, false) := by
  simp only [CacheService.Get, CacheService.Set, time.UnixNano, time.Add, time.wrapInt64,
    Function.update_same]
  split
  · rfl
  · rename_i h
    exfalso
    omega

theorem get_at_expiry {V : Type} (c : CacheService V) (k : String) (v : V) (t ttl : Int) :
    (c.Set t k v ttl).Get (t + ttl) k = (some v, true) := by
  simp only [CacheService.Get, CacheService.Set, time.UnixNano, time.Add, time.wrapInt64,
    Function.update_same]
  split
  · rename_i h
    exact absurd h (lt_irrefl _)
  · rfl

/-- C5 (counterexample).  With the clock in 2023 and a positive `duration` of
9e18 ns (a legal `time.Duration`), `UnixNano` of the expiry wraps below zero and
`Get` at the very same instant reports the entry as not found. -/
theorem C5_counterexample :
    (0 : Int) < 9000000000000000000 ∧ (9000000000000000000 : Int) ≤ time.maxDuration ∧
    ((CacheService.empty : CacheService Nat).Set 1700000000000000000 "k" 7
        9000000000000000000).Get 1700000000000000000 "k" = (none, false) := by
  refine ⟨by decide, by decide, ?_⟩
  simp only [CacheService.Get, CacheService.Set, time.UnixNano, time.Add, time.wrapInt64,
    Function.update_same]
  rfl

/-- C5 (amended).  For every cache state, key `k`, value `v`, instant `t` and
`ttl > 0` such that `t` and `t + ttl` are representable as `int64` Unix
nanoseconds: `Get(k)` at time `t`, right after `Set(k, v, ttl)` performed at
time `t`, returns `(v, true)`. -/
theorem C5_get_after_set {V : Type} (c : CacheService V) (k : String) (v : V) (t ttl : Int)
    (hpos : 0 < ttl) (hlo : -9223372036854775808 ≤ t) (hhi : t + ttl ≤ 9223372036854775807) :
    (c.Set t k v ttl).Get t k = (some v, true) :=
  get_after_set_aux c k v t ttl hlo (le_of_lt hpos) hhi

theorem C5_get_after_set_witness :
    ((CacheService.empty : CacheService Nat).Set 1700000000000000000 "market_data" 7
        (15 * time.Minute)).Get 1700000000000000000 "market_data" = (some 7, true) :=
  C5_get_after_set CacheService.empty "market_data" 7 1700000000000000000 (15 * time.Minute)
    (by decide) (by decide) (by decide)

/-- C6 (counterexample).  An entry set at time 0 with a duration of 10 ns has
`Expiration = 10`; at time 10, that is when `now >= expiresAt` holds with
equality and exactly `ttl` has elapsed, `Get` still returns the value as found. -/
theorem C6_counterexample :
    ((CacheService.empty : CacheService Nat).Set 0 "k" 7 10).items "k"
        = some { Value := 7, Expiration := 10 } ∧
    (10 : Int) - 0 ≥ 10 ∧
    ((CacheService.empty : CacheService Nat).Set 0 "k" 7 10).Get 10 "k" = (some 7, true) := by
  refine ⟨?_, by decide, ?_⟩
  · simp only [CacheService.Set, Function.update_same]
    rfl
  · simp only [CacheService.Get, CacheService.Set, time.UnixNano, time.Add, time.wrapInt64,
      Function.update_same]
    rfl

/-- C6 (amended).  For every cache state, key `k` and time `now`, `Get(k)`
returns `found = false` if and only if `k` is absent or the clock reading
`now.UnixNano()` is strictly greater than the stored `Expiration`; in
particular, for an entry set at time `t` with duration `ttl` (expiry and reading
time representable as `int64` Unix nanoseconds), `Get` at every time `t'` with
`t' - t > ttl` returns not found, whereas at exactly `t + ttl` the entry is
still returned. -/
theorem C6_get_not_found {V : Type} (c : CacheService V) (now : Time) (k : String) (v : V)
    (t ttl t' : Int) (hlo : -9223372036854775808 ≤ t + ttl)
    (hhi : t' ≤ 9223372036854775807) (hel : t' - t > ttl) :
    ((c.Get now k).2 = false ↔
      (c.items k = none ∨ ∃ item, c.items k = some item ∧ time.UnixNano now > item.Expiration)) ∧
    (c.Set t k v ttl).Get t' k = (none, false) ∧
    (c.Set t k v ttl).Get (t + ttl) k = (some v, true) :=
  ⟨get_not_found_iff c now k, get_after_set_elapsed c k v t ttl t' hlo hhi hel,
   get_at_expiry c k v t ttl⟩

theorem C6_get_not_found_witness :
    (((CacheService.empty : CacheService Nat).Get 5 "k").2 = false ↔
      ((CacheService.empty : CacheService Nat).items "k" = none ∨
        ∃ item, (CacheService.empty : CacheService Nat).items "k" = some item ∧
          time.UnixNano 5 > item.Expiration)) ∧
    ((CacheService.empty : CacheService Nat).Set 0 "k" 7 10).Get 11 "k" = (none, false) ∧
    ((CacheService.empty : CacheService Nat).Set 0 "k" 7 10).Get (0 + 10) "k" = (some 7, true) :=
  C6_get_not_found CacheService.empty 5 "k" 7 0 10 11 (by decide) (by decide) (by decide)

/-- C4.  `ScraperService.GetMarketData` on a cache miss: whenever the CoinGecko
fetch fails and the CryptoCompare fetch succeeds, the call returns the
CryptoCompare output with a nil error, and the fetchers invoked are exactly
CoinGecko then CryptoCompare, so Alternative.me is never invoked. -/
theorem C4_fallback_second (s : ScraperService) (now : Time)
    (hmiss : (s.cache.Get now "market_data").2 = false)
    (h1 : s.fetchCoinGeckoMarketData.err ≠ none)
    (h2 : s.fetchCryptoCompareMarketData.err = none) :
    ∃ ret, s.GetMarketData now = some ret ∧
      ret.val = s.fetchCryptoCompareMarketData.val ∧ ret.err = none ∧
      ret.calls = [Fetcher.CoinGecko, Fetcher.CryptoCompare] ∧
      Fetcher.AlternativeMe ∉ ret.calls := by
  have hget : s.cache.Get now "market_data" = ((s.cache.Get now "market_data").1, false) := by
    rw [← hmiss]
  cases h1' : s.fetchCoinGeckoMarketData.err with
  | none => exact absurd h1' h1
  | some e =>
    refine ⟨s.deliver now s.fetchCryptoCompareMarketData.val
      [Fetcher.CoinGecko, Fetcher.CryptoCompare], ?_, rfl, rfl, rfl, ?_⟩
    · unfold ScraperService.GetMarketData
      simp only []
      rw [hget]
      simp only [h1', h2]
    · simp [ScraperService.deliver]

theorem C4_fallback_second_witness :
    ∃ ret, ScraperService.GetMarketData
        { cache := CacheService.empty,
          fetchCoinGeckoMarketData := ⟨[], some "status inválido: 429"⟩,
          fetchCryptoCompareMarketData := ⟨[{ Symbol := "BTC" }], none⟩,
          fetchAlternativeMeMarketData := ⟨[{ ID := "1", Symbol := "BTC" }], none⟩,
          subscriberReady := false } 0 = some ret ∧
      ret.val = [{ Symbol := "BTC" }] ∧ ret.err = none ∧
      ret.calls = [Fetcher.CoinGecko, Fetcher.CryptoCompare] ∧
      Fetcher.AlternativeMe ∉ ret.calls :=
  C4_fallback_second
    { cache := CacheService.empty,
      fetchCoinGeckoMarketData := ⟨[], some "status inválido: 429"⟩,
      fetchCryptoCompareMarketData := ⟨[{ Symbol := "BTC" }], none⟩,
      fetchAlternativeMeMarketData := ⟨[{ ID := "1", Symbol := "BTC" }], none⟩,
      subscriberReady := false } 0 rfl (by decide) rfl

end scraper

namespace inmemory

theorem saveCrypto_marketData (z : CryptoRepository) (x : models.CryptoData) (k : String) :
    (z.saveCrypto x).marketData k =
      if k = x.ID then
        (match z.marketData x.ID with
         | some e => if e.LastUpdated < x.LastUpdated then some x else some e
         | none => some x)
      else z.marketData k := by
  unfold CryptoRepository.saveCrypto
  cases hz : z.marketData x.ID with
  | none =>
    by_cases hk : k = x.ID
    · subst hk; simp
    · simp [hk]
  | some e =>
    by_cases hlt : e.LastUpdated < x.LastUpdated
    · by_cases hk : k = x.ID
      · subst hk; simp [time.After, hlt]
      · simp [time.After, hlt, hk]
    · by_cases hk : k = x.ID
      · subst hk; simp [time.After, hlt, hz]
      · simp [time.After, hlt, hk]

theorem saveCrypto_frame (z : CryptoRepository) (x : models.CryptoData) :
    (z.saveCrypto x).coinDetails = z.coinDetails ∧
    (z.saveCrypto x).historicalData = z.historicalData ∧
    (z.saveCrypto x).globalData = z.globalData := by
  unfold CryptoRepository.saveCrypto
  cases hz : z.marketData x.ID with
  | none => simp
  | some e => by_cases hlt : time.After x.LastUpdated e.LastUpdated = true <;> simp [hlt]

theorem CryptoRepository.ext_fields {a b : CryptoRepository}
    (h1 : ∀ k, a.marketData k = b.marketData k) (h2 : a.coinDetails = b.coinDetails)
    (h3 : a.historicalData = b.historicalData) (h4 : a.globalData = b.globalData) : a = b := by
  cases a; cases b
  simp only [CryptoRepository.mk.injEq]
  exact ⟨funext h1, h2, h3, h4⟩

theorem saveCrypto_comm (z : CryptoRepository) (x y : models.CryptoData)
    (h : x.ID = y.ID → x.LastUpdated = y.LastUpdated → x = y) :
    (z.saveCrypto x).saveCrypto y = (z.saveCrypto y).saveCrypto x := by
  apply CryptoRepository.ext_fields
  · intro k
    simp only [saveCrypto_marketData]
    by_cases hid : x.ID = y.ID
    · have hxy : x.LastUpdated < y.LastUpdated ∨ y.LastUpdated < x.LastUpdated ∨ x = y := by
        rcases lt_trichotomy x.LastUpdated y.LastUpdated with h1 | h1 | h1
        · exact Or.inl h1
        · exact Or.inr (Or.inr (h hid h1))
        · exact Or.inr (Or.inl h1)
      by_cases hk : k = y.ID
      · subst hk
        simp only [hid, if_true]
        cases hz : z.marketData y.ID with
        | none =>
          simp only []
          rcases hxy with h1 | h1 | h1
          · have h2 : ¬ y.LastUpdated < x.LastUpdated := not_lt.mpr (le_of_lt h1)
            simp [h1, h2]
          · have h2 : ¬ x.LastUpdated < y.LastUpdated := not_lt.mpr (le_of_lt h1)
            simp [h1, h2]
          · subst h1; rfl
        | some e =>
          simp only []
          rcases hxy with h1 | h1 | h1
          · have h2 : ¬ y.LastUpdated < x.LastUpdated := lt_asymm h1
            by_cases hx : e.LastUpdated < x.LastUpdated
            · have hy : e.LastUpdated < y.LastUpdated := lt_trans hx h1
              simp [hx, hy, h1, h2]
            · by_cases hy : e.LastUpdated < y.LastUpdated <;> simp [hx, hy, h1, h2]
          · have h2 : ¬ x.LastUpdated < y.LastUpdated := lt_asymm h1
            by_cases hy : e.LastUpdated < y.LastUpdated
            · have hx : e.LastUpdated < x.LastUpdated := lt_trans hy h1
              simp [hx, hy, h1, h2]
            · by_cases hx : e.LastUpdated < x.LastUpdated <;> simp [hx, hy, h1, h2]
          · subst h1; rfl
      · simp [hk, hid]
    · have hid' : ¬ y.ID = x.ID := fun h' => hid h'.symm
      by_cases hkx : k = x.ID
      · subst hkx
        simp [hid, hid']
      · by_cases hky : k = y.ID
        · subst hky
          simp [hid, hid']
        · simp [hkx, hky]
  · simp [(saveCrypto_frame _ _).1]
  · simp [(saveCrypto_frame _ _).2.1]
  · simp [(saveCrypto_frame _ _).2.2]

theorem saveCrypto_of_not_after (r : CryptoRepository) (x e : models.CryptoData)
    (he : r.marketData x.ID = some e) (hle : ¬ e.LastUpdated < x.LastUpdated) :
    r.saveCrypto x = r := by
  unfold CryptoRepository.saveCrypto
  rw [he]
  simp [time.After, hle]

theorem foldl_saveCrypto_of_not_after (data : List models.CryptoData) (r : CryptoRepository)
    (h : ∀ x ∈ data, ∃ e, r.marketData x.ID = some e ∧ ¬ e.LastUpdated < x.LastUpdated) :
    data.foldl CryptoRepository.saveCrypto r = r := by
  induction data with
  | nil => rfl
  | cons x rest ih =>
    obtain ⟨e, he, hle⟩ := h x (List.mem_cons_self x rest)
    rw [List.foldl_cons, saveCrypto_of_not_after r x e he hle]
    exact ih (fun y hy => h y (List.mem_cons_of_mem x hy))

theorem saveCoinDetails_of_older (r : CryptoRepository) (data existing : models.CoinDetails)
    (he : r.coinDetails data.ID = some existing)
    (hlt : data.LastUpdated < existing.LastUpdated) :
    r.SaveCoinDetails data = (r, none) := by
  unfold CryptoRepository.SaveCoinDetails
  rw [he]
  simp [time.After, lt_asymm hlt]

/-- C7.  Overwrite-if-newer, for every store `r`: `SaveMarketData` of records
each strictly older than the record stored under its id, `SaveCoinDetails` of
details strictly older than the stored details of the same id, and
`SaveGlobalMarketData` of a record strictly older than the stored one, all leave
the whole store unchanged (and return a nil error); and saving details with
timestamp `T1` into the empty store, then details of the same id with `T0 < T1`,
leaves the store as the first save made it. -/
theorem C7_overwrite_if_newer (r : CryptoRepository) :
    (∀ data : List models.CryptoData,
      (∀ x ∈ data, ∃ e, r.marketData x.ID = some e ∧ x.LastUpdated < e.LastUpdated) →
      r.SaveMarketData data = (r, none)) ∧
    (∀ data existing : models.CoinDetails,
      r.coinDetails data.ID = some existing → data.LastUpdated < existing.LastUpdated →
      r.SaveCoinDetails data = (r, none)) ∧
    (∀ data existing : models.GlobalMarketData,
      r.globalData = some existing → data.UpdatedAt < existing.UpdatedAt →
      r.SaveGlobalMarketData data = (r, none)) ∧
    (∀ d1 d0 : models.CoinDetails, d0.ID = d1.ID → d0.LastUpdated < d1.LastUpdated →
      ((NewCryptoRepository.SaveCoinDetails d1).1.SaveCoinDetails d0).1
          = (NewCryptoRepository.SaveCoinDetails d1).1 ∧
      (NewCryptoRepository.SaveCoinDetails d1).1.coinDetails d1.ID = some d1) := by
  refine ⟨?_, ?_, ?_, ?_⟩
  · intro data h
    unfold CryptoRepository.SaveMarketData
    rw [foldl_saveCrypto_of_not_after data r]
    intro x hx
    obtain ⟨e, he, hlt⟩ := h x hx
    exact ⟨e, he, lt_asymm hlt⟩
  · intro data existing he hlt
    exact saveCoinDetails_of_older r data existing he hlt
  · intro data existing he hlt
    unfold CryptoRepository.SaveGlobalMarketData
    rw [he]
    simp [time.Before, hlt]
  · intro d1 d0 hid hlt
    have h1 : (NewCryptoRepository.SaveCoinDetails d1).1.coinDetails d1.ID = some d1 := by
      simp [CryptoRepository.SaveCoinDetails, NewCryptoRepository]
    refine ⟨?_, h1⟩
    rw [saveCoinDetails_of_older _ d0 d1 (by rw [hid]; exact h1) hlt]

theorem C7_overwrite_if_newer_witness :
    Sample.storeT1.SaveMarketData [Sample.marketT0] = (Sample.storeT1, none) ∧
    Sample.storeT1.SaveCoinDetails Sample.detailsT0 = (Sample.storeT1, none) ∧
    Sample.storeT1.SaveGlobalMarketData Sample.globalT0 = (Sample.storeT1, none) ∧
    ((NewCryptoRepository.SaveCoinDetails Sample.detailsT1).1.SaveCoinDetails
        Sample.detailsT0).1.coinDetails "bitcoin" = some Sample.detailsT1 :=
  ⟨(C7_overwrite_if_newer Sample.storeT1).1 [Sample.marketT0]
      (fun x hx => ⟨Sample.marketT1, by
        rw [List.mem_singleton.mp hx]; exact ⟨rfl, by decide⟩⟩),
   (C7_overwrite_if_newer Sample.storeT1).2.1 Sample.detailsT0 Sample.detailsT1 rfl (by decide),
   (C7_overwrite_if_newer Sample.storeT1).2.2.1 Sample.globalT0 Sample.globalT1 rfl (by decide),
   by
    have h := (C7_overwrite_if_newer Sample.storeT1).2.2.2 Sample.detailsT1 Sample.detailsT0
      rfl (by decide)
    rw [h.1]
    exact h.2⟩

/-- C8 (counterexample).  The fan-out merge can hold the same id from both
providers, neither of which sets `LastUpdated`.  Saving the two Bitcoin rows into
the empty store keeps whichever comes first, so the two orders of the same list
yield different stores. -/
theorem C8_counterexample :
    List.Perm [Sample.cmcBitcoin, Sample.cgBitcoin] [Sample.cgBitcoin, Sample.cmcBitcoin] ∧
    (NewCryptoRepository.SaveMarketData [Sample.cmcBitcoin, Sample.cgBitcoin]).1.marketData
        "bitcoin" = some Sample.cmcBitcoin ∧
    (NewCryptoRepository.SaveMarketData [Sample.cgBitcoin, Sample.cmcBitcoin]).1.marketData
        "bitcoin" = some Sample.cgBitcoin ∧
    (NewCryptoRepository.SaveMarketData [Sample.cmcBitcoin, Sample.cgBitcoin]).1 ≠
      (NewCryptoRepository.SaveMarketData [Sample.cgBitcoin, Sample.cmcBitcoin]).1 := by
  have h1 : (NewCryptoRepository.SaveMarketData [Sample.cmcBitcoin, Sample.cgBitcoin]).1.marketData
      "bitcoin" = some Sample.cmcBitcoin := by
    simp only [CryptoRepository.SaveMarketData, List.foldl_cons, List.foldl_nil,
      saveCrypto_marketData]
    rfl
  have h2 : (NewCryptoRepository.SaveMarketData [Sample.cgBitcoin, Sample.cmcBitcoin]).1.marketData
      "bitcoin" = some Sample.cgBitcoin := by
    simp only [CryptoRepository.SaveMarketData, List.foldl_cons, List.foldl_nil,
      saveCrypto_marketData]
    rfl
  refine ⟨List.Perm.swap _ _ _, h1, h2, ?_⟩
  intro heq
  rw [heq, h2] at h1
  exact absurd h1 (by decide)

/-- C8 (amended).  For every store `r`, every item list `xs` in which any two
records that share both `ID` and `LastUpdated` are equal, and every permutation
`ys` of `xs`: `SaveMarketData(xs)` and `SaveMarketData(ys)` applied to `r` yield
the same store. -/
theorem C8_save_order_independent (r : CryptoRepository) (xs ys : List models.CryptoData)
    (hperm : xs.Perm ys)
    (hcompat : ∀ a ∈ xs, ∀ b ∈ xs, a.ID = b.ID → a.LastUpdated = b.LastUpdated → a = b) :
    r.SaveMarketData xs = r.SaveMarketData ys := by
  unfold CryptoRepository.SaveMarketData
  have hfold := hperm.foldl_eq' (fun x hx y hy z => saveCrypto_comm z x y (hcompat x hx y hy)) r
  rw [hfold]

theorem C8_save_order_independent_witness :
    Sample.storeT1.SaveMarketData [Sample.marketT0, Sample.cgBitcoin]
      = Sample.storeT1.SaveMarketData [Sample.cgBitcoin, Sample.marketT0] :=
  C8_save_order_independent Sample.storeT1 [Sample.marketT0, Sample.cgBitcoin]
    [Sample.cgBitcoin, Sample.marketT0] (List.Perm.swap _ _ _) (by
      intro a ha b hb _ hts
      simp only [List.mem_cons, List.mem_singleton, List.not_mem_nil, or_false] at ha hb
      rcases ha with rfl | rfl <;> rcases hb with rfl | rfl
      · rfl
      · exact absurd hts (by decide)
      · exact absurd hts (by decide)
      · rfl)

end inmemory

namespace client

theorem keptRows_or_error (page : Page) (limit : Int) (source : String)
    (msg : String → String) :
    ∀ r : Res (List models.CryptoData),
      r = (match page with
        | .unreachable err => ⟨[], some (msg err)⟩
        | .badStatus code => ⟨[], some ("status code inválido: " ++ toString code)⟩
        | .parseFailure err => ⟨[], some ("erro ao parsear HTML: " ++ err)⟩
        | .document rows =>
          if (keptRows source rows limit).length = 0 then
            ⟨[], some "nenhum dado de criptomoeda encontrado"⟩
          else ⟨keptRows source rows limit, none⟩) →
      (r.err = none → r.val ≠ []) ∧ (r.err ≠ none → r.val = []) := by
  intro r hr
  subst hr
  cases page with
  | unreachable err => simp
  | badStatus code => simp
  | parseFailure err => simp
  | document rows =>
    by_cases h : (keptRows source rows limit).length = 0
    · simp [h]
    · simp only [h, if_false]
      exact ⟨fun _ hnil => h (by rw [hnil]; rfl), fun hne => absurd rfl hne⟩

theorem coinGecko_market_post (s : CoinGeckoScraper) (limit : Int) :
    ((s.GetMarketData limit).err = none → (s.GetMarketData limit).val ≠ []) ∧
    ((s.GetMarketData limit).err ≠ none → (s.GetMarketData limit).val = []) :=
  keptRows_or_error _ _ "coingecko" (fun err => "erro ao acessar CoinGecko: " ++ err) _ rfl

theorem coinMarketCap_market_post (s : CoinMarketCapScraper) (limit : Int) :
    ((s.GetMarketData limit).err = none → (s.GetMarketData limit).val ≠ []) ∧
    ((s.GetMarketData limit).err ≠ none → (s.GetMarketData limit).val = []) :=
  keptRows_or_error _ _ "coinmarketcap"
    (fun err => "erro ao acessar CoinMarketCap: " ++ err) _ rfl

end client

namespace market

theorem cache_lookup_miss (s : Service) (now : Time) (key : String)
    (h : s.isCacheValid now key = false) :
    (if s.isCacheValid now key then s.getCache key else (none, false)) = (none, false) := by
  simp [h]

theorem merged_items (a b : Res (List models.CryptoData)) :
    ([a, b].foldl collect ([], [])).1 = succeededItems a ++ succeededItems b := by
  cases ha : a.err <;> cases hb : b.err <;> simp [collect, succeededItems, ha, hb]

/-- The items merged by the two goroutines of `GetMarketData`, in the order in
which they took the mutex. -/
theorem merged_order (cmcFirst : Bool) (cmc cg : Res (List models.CryptoData)) :
    ((if cmcFirst then [cmc, cg] else [cg, cmc]).foldl collect ([], [])).1 =
      if cmcFirst then succeededItems cmc ++ succeededItems cg
      else succeededItems cg ++ succeededItems cmc := by
  cases cmcFirst <;> simp only [Bool.false_eq_true, if_false, if_true] <;> exact merged_items _ _

theorem GetMarketData_live (s : Service) (now : Time) (cmcFirst : Bool) (currency : String)
    (limit page : Int) (ids : List String)
    (hcache : s.isCacheValid now (marketDataKey currency limit page ids) = false)
    (hstore : ¬ ((s.repo.GetMarketData currency limit page ids).err = none ∧
      (s.repo.GetMarketData currency limit page ids).val.length > 0))
    (items : List models.CryptoData)
    (hitems : items = if cmcFirst then
        succeededItems (s.coinMarketCap.GetMarketData limit) ++
          succeededItems (s.coinGecko.GetMarketData limit)
      else succeededItems (s.coinGecko.GetMarketData limit) ++
          succeededItems (s.coinMarketCap.GetMarketData limit)) :
    ∃ ret, s.GetMarketData now cmcFirst currency limit page ids = some ret ∧
      ret.calls = [Provider.CoinMarketCap, Provider.CoinGecko] ∧
      (items = [] → ret.err ≠ none ∧ ret.val = [] ∧ ret.cache = s.cache ∧ ret.saved = none) ∧
      (items ≠ [] → ret.err = none ∧ ret.val = items ∧
        ret.cache = s.setCache now (marketDataKey currency limit page ids)
          (Payload.marketData items) (5 * time.Minute) ∧
        ret.saved = some (Payload.marketData items)) := by
  rw [← merged_order] at hitems
  unfold Service.GetMarketData
  simp only [cache_lookup_miss s now _ hcache, hstore, if_false]
  rw [← hitems]
  by_cases hnil : items = []
  · subst hnil
    simp
  · have hlen : ¬ items.length = 0 := fun h => hnil (List.length_eq_zero.mp h)
    simp [hlen, hnil]

theorem succeededItems_eq_nil_iff (r : Res (List models.CryptoData))
    (hpost : r.err = none → r.val ≠ []) : succeededItems r = [] ↔ r.err ≠ none := by
  unfold succeededItems
  cases h : r.err with
  | none => simpa using hpost h
  | some e => simp

/-- C1.  `GetMarketData` on a cache miss and a store miss: if at least one of
the two provider clients returns items (a nil error), the call succeeds and the
returned list is a permutation of the concatenation of the item lists of the
providers that succeeded, whichever goroutine finished first. -/
theorem C1_fanout_merge (s : Service) (now : Time) (cmcFirst : Bool) (currency : String)
    (limit page : Int) (ids : List String)
    (hcache : s.isCacheValid now (marketDataKey currency limit page ids) = false)
    (hstore : ¬ ((s.repo.GetMarketData currency limit page ids).err = none ∧
      (s.repo.GetMarketData currency limit page ids).val.length > 0))
    (hsome : (s.coinMarketCap.GetMarketData limit).err = none ∨
      (s.coinGecko.GetMarketData limit).err = none) :
    ∃ ret, s.GetMarketData now cmcFirst currency limit page ids = some ret ∧
      ret.err = none ∧
      ret.val.Perm (succeededItems (s.coinMarketCap.GetMarketData limit) ++
        succeededItems (s.coinGecko.GetMarketData limit)) := by
  obtain ⟨ret, hret, _, _, hok⟩ :=
    GetMarketData_live s now cmcFirst currency limit page ids hcache hstore _ rfl
  have hcmc := succeededItems_eq_nil_iff _ (client.coinMarketCap_market_post s.coinMarketCap limit).1
  have hcg := succeededItems_eq_nil_iff _ (client.coinGecko_market_post s.coinGecko limit).1
  have hne : (if cmcFirst then
        succeededItems (s.coinMarketCap.GetMarketData limit) ++
          succeededItems (s.coinGecko.GetMarketData limit)
      else succeededItems (s.coinGecko.GetMarketData limit) ++
          succeededItems (s.coinMarketCap.GetMarketData limit)) ≠ [] := by
    intro hnil
    have hboth : succeededItems (s.coinMarketCap.GetMarketData limit) = [] ∧
        succeededItems (s.coinGecko.GetMarketData limit) = [] := by
      cases cmcFirst <;> simp at hnil <;> simp [hnil]
    rcases hsome with h | h
    · exact hcmc.mp hboth.1 h
    · exact hcg.mp hboth.2 h
  obtain ⟨herr, hval, _, _⟩ := hok hne
  refine ⟨ret, hret, herr, ?_⟩
  rw [hval]
  cases cmcFirst
  · simpa using List.perm_append_comm
  · simp

theorem C1_fanout_merge_witness :
    (∃ ret, Sample.svcCmcOnly.GetMarketData 0 false "usd" 100 1 [] = some ret ∧
      ret.err = none ∧
      ret.val.Perm (succeededItems (Sample.svcCmcOnly.coinMarketCap.GetMarketData 100) ++
        succeededItems (Sample.svcCmcOnly.coinGecko.GetMarketData 100))) ∧
    succeededItems (Sample.svcCmcOnly.coinMarketCap.GetMarketData 100) ++
        succeededItems (Sample.svcCmcOnly.coinGecko.GetMarketData 100)
      = [Sample.cmcBitcoin, Sample.cmcEthereum, Sample.cmcRipple] :=
  ⟨C1_fanout_merge Sample.svcCmcOnly 0 false "usd" 100 1 [] rfl (by decide) (Or.inl rfl), rfl⟩

/-- C2.  `GetMarketData` on a cache miss and a store miss returns an error if
and only if both provider clients returned an error. -/
theorem C2_error_iff_all_failed (s : Service) (now : Time) (cmcFirst : Bool)
    (currency : String) (limit page : Int) (ids : List String)
    (hcache : s.isCacheValid now (marketDataKey currency limit page ids) = false)
    (hstore : ¬ ((s.repo.GetMarketData currency limit page ids).err = none ∧
      (s.repo.GetMarketData currency limit page ids).val.length > 0)) :
    ∃ ret, s.GetMarketData now cmcFirst currency limit page ids = some ret ∧
      (ret.err ≠ none ↔
        ((s.coinMarketCap.GetMarketData limit).err ≠ none ∧
          (s.coinGecko.GetMarketData limit).err ≠ none)) := by
  obtain ⟨ret, hret, _, hfail, hok⟩ :=
    GetMarketData_live s now cmcFirst currency limit page ids hcache hstore _ rfl
  have hcmc := succeededItems_eq_nil_iff _ (client.coinMarketCap_market_post s.coinMarketCap limit).1
  have hcg := succeededItems_eq_nil_iff _ (client.coinGecko_market_post s.coinGecko limit).1
  have hnil : (if cmcFirst then
        succeededItems (s.coinMarketCap.GetMarketData limit) ++
          succeededItems (s.coinGecko.GetMarketData limit)
      else succeededItems (s.coinGecko.GetMarketData limit) ++
          succeededItems (s.coinMarketCap.GetMarketData limit)) = [] ↔
      ((s.coinMarketCap.GetMarketData limit).err ≠ none ∧
          (s.coinGecko.GetMarketData limit).err ≠ none) := by
    rw [← hcmc, ← hcg]
    cases cmcFirst <;> simp [and_comm]
  refine ⟨ret, hret, ?_⟩
  constructor
  · intro herr
    by_contra hnot
    exact herr (hok (fun h => hnot (hnil.mp h))).1
  · intro hboth
    exact (hfail (hnil.mpr hboth)).1

theorem C2_error_iff_all_failed_witness :
    ∃ ret, Sample.svcDown.GetMarketData 0 true "usd" 100 1 [] = some ret ∧
      (ret.err ≠ none ↔
        ((Sample.svcDown.coinMarketCap.GetMarketData 100).err ≠ none ∧
          (Sample.svcDown.coinGecko.GetMarketData 100).err ≠ none)) :=
  C2_error_iff_all_failed Sample.svcDown 0 true "usd" 100 1 [] rfl (by decide)

theorem found_eq_some_iff {α : Type} (r : Res (Option α)) (d : α) :
    found r = some d ↔ (r.err = none ∧ r.val = some d) := by
  unfold found
  cases he : r.err <;> cases hv : r.val <;> simp

theorem foundHistory_eq_some_iff (r : Res (Option models.HistoricalData))
    (d : models.HistoricalData) :
    foundHistory r = some d ↔ (r.err = none ∧ r.val = some d ∧ d.Prices.length > 0) := by
  unfold foundHistory
  cases he : r.err with
  | some e => simp
  | none =>
    cases hv : r.val with
    | none => simp
    | some x =>
      simp only [true_and, Option.some.injEq]
      by_cases hx : x.Prices.length > 0
      · rw [if_pos hx]
        constructor
        · intro h
          cases h
          exact ⟨rfl, hx⟩
        · rintro ⟨rfl, _⟩
          rfl
      · rw [if_neg hx]
        constructor
        · intro h
          cases h
        · rintro ⟨rfl, h⟩
          exact absurd h hx

theorem orderedFallback_of_cases {α : Type} (cg cmc : Option α) (ret : Ret (Option α))
    (mk : α → List Provider → Ret (Option α))
    (hmk : ∀ d calls, (mk d calls).val = some d ∧ (mk d calls).err = none ∧
      (mk d calls).calls = calls)
    (failed : Ret (Option α)) (hfailed : failed.err ≠ none)
    (hcalls : failed.calls = [Provider.CoinGecko, Provider.CoinMarketCap])
    (hret : ret = match cg with
      | some d => mk d [Provider.CoinGecko]
      | none => match cmc with
        | some d => mk d [Provider.CoinGecko, Provider.CoinMarketCap]
        | none => failed) :
    OrderedFallback cg cmc ret := by
  subst hret
  cases cg with
  | some d =>
    refine ⟨?_, ?_, ?_, ?_⟩
    · intro d' hd
      cases hd
      exact hmk d _
    · intro h; cases h
    · intro h; cases h
    · simp [(hmk d [Provider.CoinGecko]).2.1]
  | none =>
    cases cmc with
    | some d =>
      refine ⟨?_, ?_, ?_, ?_⟩
      · intro d' hd; cases hd
      · intro _; exact (hmk d _).2.2
      · intro _ d' hd
        cases hd
        exact ⟨(hmk d _).1, (hmk d _).2.1⟩
      · simp [(hmk d [Provider.CoinGecko, Provider.CoinMarketCap]).2.1]
    | none =>
      refine ⟨?_, ?_, ?_, ?_⟩
      · intro d' hd; cases hd
      · intro _; exact hcalls
      · intro _ d' hd; cases hd
      · simpa using hfailed

theorem orderedFallback_calls_ne_nil {α : Type} (cg cmc : Option α) (ret : Ret (Option α))
    (h : OrderedFallback cg cmc ret) : ret.calls ≠ [] := by
  cases cg with
  | some d => rw [(h.1 d rfl).2.2]; simp
  | none => rw [h.2.1 rfl]; simp

theorem GetGlobalMarketData_stored (s : Service) (now : Time) (g : models.GlobalMarketData)
    (hcache : s.isCacheValid now globalMarketDataKey = false)
    (hstore : found s.repo.GetGlobalMarketData = some g) :
    s.GetGlobalMarketData now = some
      { val := some g, err := none,
        cache := s.setCache now globalMarketDataKey (.globalMarketData g) (15 * time.Minute),
        calls := [], reads := [.GetGlobalMarketData], saved := none } := by
  unfold Service.GetGlobalMarketData
  simp only [cache_lookup_miss s now _ hcache, hstore]

theorem GetCoinDetails_live (s : Service) (now : Time) (id : String)
    (hcache : s.isCacheValid now (coinDetailsKey id) = false)
    (hstore : found (s.repo.GetCoinDetails id) = none) :
    ∃ ret, s.GetCoinDetails now id = some ret ∧
      OrderedFallback (found (s.coinGecko.GetCoinDetails id))
        (found (s.coinMarketCap.GetCoinDetails id)) ret := by
  unfold Service.GetCoinDetails
  simp only [cache_lookup_miss s now _ hcache, hstore]
  refine ⟨_, ?_, orderedFallback_of_cases _ _ _
    (fun d calls =>
      { val := some d, err := none,
        cache := s.setCache now (coinDetailsKey id) (.coinDetails d) (10 * time.Minute),
        calls := calls, reads := [.GetCoinDetails], saved := some (.coinDetails d) })
    (fun d calls => ⟨rfl, rfl, rfl⟩)
    { val := none,
      err := some ("não foi possível obter detalhes da moeda: " ++
        fmt.vError (s.coinMarketCap.GetCoinDetails id).err),
      cache := s.cache, calls := [.CoinGecko, .CoinMarketCap], reads := [.GetCoinDetails], saved := none }
    (by simp) rfl rfl⟩
  cases found (s.coinGecko.GetCoinDetails id) with
  | some d => rfl
  | none =>
    cases found (s.coinMarketCap.GetCoinDetails id) with
    | some d => rfl
    | none => rfl

theorem GetHistoricalData_live (s : Service) (now : Time) (id currency : String) (days : Int)
    (hcache : s.isCacheValid now (historicalDataKey id currency days) = false)
    (hstore : foundHistory (s.repo.GetHistoricalData id currency days) = none) :
    ∃ ret, s.GetHistoricalData now id currency days = some ret ∧
      OrderedFallback (foundHistory (s.coinGecko.GetHistoricalData id currency days))
        (foundHistory (s.coinMarketCap.GetHistoricalData id currency days)) ret := by
  unfold Service.GetHistoricalData
  simp only [cache_lookup_miss s now _ hcache, hstore]
  refine ⟨_, ?_, orderedFallback_of_cases _ _ _
    (fun d calls =>
      { val := some d, err := none,
        cache := s.setCache now (historicalDataKey id currency days) (.historicalData d)
          (1 * time.Hour),
        calls := calls, reads := [.GetHistoricalData], saved := some (.historicalData d) })
    (fun d calls => ⟨rfl, rfl, rfl⟩)
    { val := none,
      err := some ("não foi possível obter dados históricos: " ++
        fmt.vError (s.coinMarketCap.GetHistoricalData id currency days).err),
      cache := s.cache, calls := [.CoinGecko, .CoinMarketCap], reads := [.GetHistoricalData], saved := none }
    (by simp) rfl rfl⟩
  cases foundHistory (s.coinGecko.GetHistoricalData id currency days) with
  | some d => rfl
  | none =>
    cases foundHistory (s.coinMarketCap.GetHistoricalData id currency days) with
    | some d => rfl
    | none => rfl

theorem GetGlobalMarketData_live (s : Service) (now : Time)
    (hcache : s.isCacheValid now globalMarketDataKey = false)
    (hstore : found s.repo.GetGlobalMarketData = none) :
    ∃ ret, s.GetGlobalMarketData now = some ret ∧
      OrderedFallback (found s.coinGecko.GetGlobalMarketData)
        (found s.coinMarketCap.GetGlobalMarketData) ret := by
  unfold Service.GetGlobalMarketData
  simp only [cache_lookup_miss s now _ hcache, hstore]
  refine ⟨_, ?_, orderedFallback_of_cases _ _ _
    (fun d calls =>
      { val := some d, err := none,
        cache := s.setCache now globalMarketDataKey (.globalMarketData d) (15 * time.Minute),
        calls := calls, reads := [.GetGlobalMarketData], saved := some (.globalMarketData d) })
    (fun d calls => ⟨rfl, rfl, rfl⟩)
    { val := none,
      err := some ("não foi possível obter dados globais: " ++
        fmt.vError s.coinMarketCap.GetGlobalMarketData.err),
      cache := s.cache, calls := [.CoinGecko, .CoinMarketCap], reads := [.GetGlobalMarketData], saved := none }
    (by simp) rfl rfl⟩
  cases found s.coinGecko.GetGlobalMarketData with
  | some d => rfl
  | none =>
    cases found s.coinMarketCap.GetGlobalMarketData with
    | some d => rfl
    | none => rfl

/-- C3.  On a cache miss and a store miss, each of `GetCoinDetails`,
`GetHistoricalData` and `GetGlobalMarketData` tries CoinGecko and then
CoinMarketCap: it returns CoinGecko's payload, having invoked CoinGecko only,
when CoinGecko succeeds with a non-empty payload; otherwise it returns
CoinMarketCap's payload when that one succeeds with a non-empty payload; and it
returns an error exactly when both attempts failed or were empty.  The first
three conjuncts spell out the success guards: a nil error with a non-nil result,
and for a history also at least one price point. -/
theorem C3_ordered_fallback (s : Service) (now : Time) (id currency : String) (days : Int) :
    (∀ (r : Res (Option models.CoinDetails)) (d : models.CoinDetails),
      found r = some d ↔ (r.err = none ∧ r.val = some d)) ∧
    (∀ (r : Res (Option models.GlobalMarketData)) (d : models.GlobalMarketData),
      found r = some d ↔ (r.err = none ∧ r.val = some d)) ∧
    (∀ (r : Res (Option models.HistoricalData)) (d : models.HistoricalData),
      foundHistory r = some d ↔ (r.err = none ∧ r.val = some d ∧ d.Prices.length > 0)) ∧
    (s.isCacheValid now (coinDetailsKey id) = false →
      found (s.repo.GetCoinDetails id) = none →
      ∃ ret, s.GetCoinDetails now id = some ret ∧
        OrderedFallback (found (s.coinGecko.GetCoinDetails id))
          (found (s.coinMarketCap.GetCoinDetails id)) ret) ∧
    (s.isCacheValid now (historicalDataKey id currency days) = false →
      foundHistory (s.repo.GetHistoricalData id currency days) = none →
      ∃ ret, s.GetHistoricalData now id currency days = some ret ∧
        OrderedFallback (foundHistory (s.coinGecko.GetHistoricalData id currency days))
          (foundHistory (s.coinMarketCap.GetHistoricalData id currency days)) ret) ∧
    (s.isCacheValid now globalMarketDataKey = false →
      found s.repo.GetGlobalMarketData = none →
      ∃ ret, s.GetGlobalMarketData now = some ret ∧
        OrderedFallback (found s.coinGecko.GetGlobalMarketData)
          (found s.coinMarketCap.GetGlobalMarketData) ret) :=
  ⟨found_eq_some_iff, found_eq_some_iff, foundHistory_eq_some_iff,
   GetCoinDetails_live s now id, GetHistoricalData_live s now id currency days,
   GetGlobalMarketData_live s now⟩

theorem C3_ordered_fallback_witness :
    (∃ ret, Sample.svcCmcOnly.GetCoinDetails 0 "bitcoin" = some ret ∧
      ret.val = some Sample.detailsT0 ∧ ret.err = none ∧
      ret.calls = [Provider.CoinGecko, Provider.CoinMarketCap]) ∧
    (∃ ret, Sample.svcCgOnly.GetHistoricalData 0 "bitcoin" "usd" 7 = some ret ∧
      ret.val = some Sample.history ∧ ret.err = none ∧ ret.calls = [Provider.CoinGecko]) ∧
    (∃ ret, Sample.svcDown.GetGlobalMarketData 0 = some ret ∧ ret.err ≠ none) := by
  refine ⟨?_, ?_, ?_⟩
  · obtain ⟨ret, hret, hspec⟩ :=
      (C3_ordered_fallback Sample.svcCmcOnly 0 "bitcoin" "usd" 7).2.2.2.1 rfl rfl
    exact ⟨ret, hret, (hspec.2.2.1 rfl Sample.detailsT0 rfl).1,
      (hspec.2.2.1 rfl Sample.detailsT0 rfl).2, hspec.2.1 rfl⟩
  · obtain ⟨ret, hret, hspec⟩ :=
      (C3_ordered_fallback Sample.svcCgOnly 0 "bitcoin" "usd" 7).2.2.2.2.1 rfl rfl
    exact ⟨ret, hret, hspec.1 Sample.history rfl⟩
  · obtain ⟨ret, hret, hspec⟩ :=
      (C3_ordered_fallback Sample.svcDown 0 "bitcoin" "usd" 7).2.2.2.2.2 rfl rfl
    exact ⟨ret, hret, hspec.2.2.2.mpr ⟨rfl, rfl⟩⟩

theorem since_gt_hour_iff (now u : Int) :
    time.Since now u > 1 * time.Hour ↔ now - u > 3600000000000 := by
  have hHour : (1 : Int) * time.Hour = 3600000000000 := by decide
  rw [hHour]
  unfold time.Since time.Sub time.minDuration time.maxDuration
  show (if (-9223372036854775808 : Int) ≤ now - u ∧ now - u ≤ 9223372036854775807 then now - u
      else if now < u then (-9223372036854775808 : Int) else 9223372036854775807) > 3600000000000
    ↔ now - u > 3600000000000
  split_ifs with h1 h2
  · rfl
  · constructor <;> intro h <;> omega
  · constructor <;> intro h <;> omega

/-- C9.  Staleness: on a cache miss at time `now`, with the store answering the
global lookup as the in-memory repository `r` does, `GetGlobalMarketData`
invokes a provider if and only if `r` holds no global record or the stored
record has `UpdatedAt` more than one hour (3.6e12 ns) before `now`; otherwise
it invokes no provider and returns the stored record. -/
theorem C9_global_staleness (s : Service) (r : inmemory.CryptoRepository) (now : Time)
    (hrepo : s.repo.GetGlobalMarketData = r.GetGlobalMarketData now)
    (hcache : s.isCacheValid now globalMarketDataKey = false) :
    ∃ ret, s.GetGlobalMarketData now = some ret ∧
      (ret.calls ≠ [] ↔
        (r.globalData = none ∨
          ∃ g, r.globalData = some g ∧ now - g.UpdatedAt > 3600000000000)) ∧
      (ret.calls = [] → ∃ g, r.globalData = some g ∧ ret.val = some g ∧ ret.err = none) := by
  cases hg : r.globalData with
  | none =>
    have hstore : found s.repo.GetGlobalMarketData = none := by
      rw [hrepo]
      simp [inmemory.CryptoRepository.GetGlobalMarketData, hg, found]
    obtain ⟨ret, hret, hspec⟩ := GetGlobalMarketData_live s now hcache hstore
    have hne := orderedFallback_calls_ne_nil _ _ ret hspec
    exact ⟨ret, hret, ⟨fun _ => Or.inl rfl, fun _ => hne⟩, fun h => absurd h hne⟩
  | some g =>
    by_cases hstale : time.Since now g.UpdatedAt > 1 * time.Hour
    · have hstore : found s.repo.GetGlobalMarketData = none := by
        rw [hrepo]
        unfold inmemory.CryptoRepository.GetGlobalMarketData
        rw [hg]
        simp only []
        rw [if_pos hstale]
        rfl
      obtain ⟨ret, hret, hspec⟩ := GetGlobalMarketData_live s now hcache hstore
      have hne := orderedFallback_calls_ne_nil _ _ ret hspec
      exact ⟨ret, hret,
        ⟨fun _ => Or.inr ⟨g, rfl, (since_gt_hour_iff now g.UpdatedAt).mp hstale⟩, fun _ => hne⟩,
        fun h => absurd h hne⟩
    · have hstore : found s.repo.GetGlobalMarketData = some g := by
        rw [hrepo]
        unfold inmemory.CryptoRepository.GetGlobalMarketData
        rw [hg]
        simp only []
        rw [if_neg hstale]
        rfl
      refine ⟨_, GetGlobalMarketData_stored s now g hcache hstore, ⟨?_, ?_⟩, ?_⟩
      · intro h
        exact absurd rfl h
      · intro h
        rcases h with h | ⟨g', hg', hold⟩
        · cases h
        · cases hg'
          exact absurd ((since_gt_hour_iff now g.UpdatedAt).mpr hold) hstale
      · intro _
        exact ⟨g, rfl, rfl, rfl⟩

theorem C9_global_staleness_witness :
    ∃ ret, Sample.svcStoredGlobal.GetGlobalMarketData Sample.halfHourLater = some ret ∧
      ret.calls = [] ∧ ret.val = some Sample.globalT1 ∧ ret.err = none := by
  obtain ⟨ret, hret, hiff, hstored⟩ :=
    C9_global_staleness Sample.svcStoredGlobal Sample.storeT1 Sample.halfHourLater rfl rfl
  have hcalls : ret.calls = [] := by
    by_contra hne
    rcases hiff.mp hne with h | ⟨g, hg, hold⟩
    · exact absurd h (by simp [Sample.storeT1])
    · have hg' : g = Sample.globalT1 := by
        simp only [Sample.storeT1, Option.some.injEq] at hg
        exact hg.symm
      subst hg'
      exact absurd hold (by decide)
  obtain ⟨g, hg, hval, herr⟩ := hstored hcalls
  have hg' : g = Sample.globalT1 := by
    simp only [Sample.storeT1, Option.some.injEq] at hg
    exact hg.symm
  subst hg'
  exact ⟨ret, hret, hcalls, hval, herr⟩

/-- C10.  A negative result is never cached: for every service state and every
one of `GetMarketData`, `GetCoinDetails`, `GetHistoricalData` and
`GetGlobalMarketData`, whenever the call returns an error the cache map after
the call is the cache map before it. -/
theorem C10_no_negative_caching (s : Service) (now : Time) :
    (∀ cmcFirst currency limit page ids ret,
      s.GetMarketData now cmcFirst currency limit page ids = some ret →
      ret.err ≠ none → ret.cache = s.cache) ∧
    (∀ id ret, s.GetCoinDetails now id = some ret → ret.err ≠ none → ret.cache = s.cache) ∧
    (∀ id currency days ret, s.GetHistoricalData now id currency days = some ret →
      ret.err ≠ none → ret.cache = s.cache) ∧
    (∀ ret, s.GetGlobalMarketData now = some ret → ret.err ≠ none → ret.cache = s.cache) := by
  refine ⟨?_, ?_, ?_, ?_⟩
  · intro cmcFirst currency limit page ids ret h herr
    unfold Service.GetMarketData at h
    simp only [] at h
    repeat' split at h
    all_goals cases h <;> first | rfl | exact absurd rfl herr
  · intro id ret h herr
    unfold Service.GetCoinDetails at h
    simp only [] at h
    repeat' split at h
    all_goals cases h <;> first | rfl | exact absurd rfl herr
  · intro id currency days ret h herr
    unfold Service.GetHistoricalData at h
    simp only [] at h
    repeat' split at h
    all_goals cases h <;> first | rfl | exact absurd rfl herr
  · intro ret h herr
    unfold Service.GetGlobalMarketData at h
    simp only [] at h
    repeat' split at h
    all_goals cases h <;> first | rfl | exact absurd rfl herr

theorem C10_no_negative_caching_witness :
    (∃ ret, Sample.svcDown.GetMarketData 0 true "usd" 100 1 [] = some ret ∧
      ret.err ≠ none ∧ ret.cache = Sample.svcDown.cache) ∧
    (∃ ret, Sample.svcDown.GetCoinDetails 0 "bitcoin" = some ret ∧
      ret.err ≠ none ∧ ret.cache = Sample.svcDown.cache) ∧
    (∃ ret, Sample.svcDown.GetHistoricalData 0 "bitcoin" "usd" 7 = some ret ∧
      ret.err ≠ none ∧ ret.cache = Sample.svcDown.cache) ∧
    (∃ ret, Sample.svcDown.GetGlobalMarketData 0 = some ret ∧
      ret.err ≠ none ∧ ret.cache = Sample.svcDown.cache) :=
  ⟨⟨_, rfl, by simp, (C10_no_negative_caching Sample.svcDown 0).1 true "usd" 100 1 [] _ rfl
      (by simp)⟩,
   ⟨_, rfl, by simp, (C10_no_negative_caching Sample.svcDown 0).2.1 "bitcoin" _ rfl (by simp)⟩,
   ⟨_, rfl, by simp, (C10_no_negative_caching Sample.svcDown 0).2.2.1 "bitcoin" "usd" 7 _ rfl
      (by simp)⟩,
   ⟨_, rfl, by simp, (C10_no_negative_caching Sample.svcDown 0).2.2.2 _ rfl (by simp)⟩⟩

theorem since_lt_of_sub_lt (now u d : Int) (hlo : -9223372036854775808 < d)
    (hd : d ≤ 9223372036854775807) (h : now - u < d) : time.Since now u < d := by
  unfold time.Since time.Sub time.minDuration time.maxDuration
  show (if (-9223372036854775808 : Int) ≤ now - u ∧ now - u ≤ 9223372036854775807 then now - u
      else if now < u then (-9223372036854775808 : Int) else 9223372036854775807) < d
  split_ifs with h1 h2
  · exact h
  · omega
  · omega

theorem GetCoinDetails_fill (s : Service) (t : Time) (id : String)
    (ret : Ret (Option models.CoinDetails))
    (hmiss : s.isCacheValid t (coinDetailsKey id) = false)
    (hcall : s.GetCoinDetails t id = some ret) (hok : ret.err = none) :
    ∃ d, ret.val = some d ∧
      ret.cache (coinDetailsKey id) =
        some { data := Payload.coinDetails d, timestamp := t, expiry := 10 * time.Minute } := by
  unfold Service.GetCoinDetails at hcall
  simp only [cache_lookup_miss s t _ hmiss] at hcall
  repeat' split at hcall
  all_goals cases hcall
  all_goals first
    | exact ⟨_, rfl, by simp [Service.setCache]⟩
    | exact absurd hok (by simp)

/-- C11.  Idempotence within the TTL: after a `GetCoinDetails(id)` that missed
the cache at time `t` and returned successfully (so that it filled the cache),
every `GetCoinDetails(id)` at a time `t'` with `t' - t < 10 minutes`, made while
the entry written for `id` is still the one in the cache, returns the same value
with a nil error, invokes no provider, makes no store lookup, spawns no save,
and leaves the cache as it is. -/
theorem C11_idempotent_within_ttl (s s' : Service) (t t' : Int) (id : String)
    (ret : Ret (Option models.CoinDetails))
    (hmiss : s.isCacheValid t (coinDetailsKey id) = false)
    (hcall : s.GetCoinDetails t id = some ret) (hok : ret.err = none)
    (hkept : s'.cache (coinDetailsKey id) = ret.cache (coinDetailsKey id))
    (hfresh : t' - t < 10 * time.Minute) :
    s'.GetCoinDetails t' id = some
      { val := ret.val, err := none, cache := s'.cache, calls := [], reads := [],
        saved := none } := by
  obtain ⟨d, hval, hentry⟩ := GetCoinDetails_fill s t id ret hmiss hcall hok
  rw [hentry] at hkept
  have hvalid : s'.isCacheValid t' (coinDetailsKey id) = true := by
    unfold Service.isCacheValid
    rw [hkept]
    simp only [decide_eq_true_eq]
    exact since_lt_of_sub_lt t' t (10 * time.Minute) (by decide) (by decide) hfresh
  have hget : s'.getCache (coinDetailsKey id) = (some (Payload.coinDetails d), true) := by
    unfold Service.getCache
    rw [hkept]
  unfold Service.GetCoinDetails
  simp only [hvalid, hget, if_true, hval]

theorem C11_idempotent_within_ttl_witness :
    ∃ ret, Sample.svcCgOnly.GetCoinDetails 0 "bitcoin" = some ret ∧
      ret.val = some Sample.detailsT1 ∧
      Service.GetCoinDetails { Sample.svcDown with cache := ret.cache } (9 * time.Minute)
          "bitcoin" = some
        { val := some Sample.detailsT1, err := none, cache := ret.cache, calls := [],
          reads := [], saved := none } :=
  ⟨_, rfl, rfl,
    C11_idempotent_within_ttl Sample.svcCgOnly { Sample.svcDown with cache := _ } 0
      (9 * time.Minute) "bitcoin" _ rfl rfl rfl rfl (by decide)⟩

end market

namespace fmt

theorem digitChar_toNat (k : Nat) (hk : k < 10) : (Nat.digitChar k).toNat - 48 = k := by
  interval_cases k <;> rfl

theorem digitChar_ne_sep (k : Nat) (hk : k < 10) :
    Nat.digitChar k ≠ '_' ∧ Nat.digitChar k ≠ '-' := by
  interval_cases k <;> decide

theorem toDigitsCore_eq (fuel : Nat) : ∀ (n : Nat) (ds : List Char), 0 < n → n < fuel →
    Nat.toDigitsCore 10 fuel n ds = (Nat.digits 10 n).reverse.map Nat.digitChar ++ ds := by
  induction fuel with
  | zero => intro n ds _ h; omega
  | succ f ih =>
    intro n ds hn hlt
    have hdig : Nat.digits 10 n = (n % 10) :: Nat.digits 10 (n / 10) :=
      Nat.digits_def' (by decide) hn
    rw [Nat.toDigitsCore]
    by_cases h0 : n / 10 = 0
    · simp only [h0, if_true]
      rw [hdig, h0]
      simp
    · simp only [h0, if_false]
      rw [ih (n / 10) _ (Nat.pos_of_ne_zero h0) (by omega), hdig]
      simp

theorem toDigits_pos (n : Nat) (hn : 0 < n) :
    Nat.toDigits 10 n = (Nat.digits 10 n).reverse.map Nat.digitChar := by
  unfold Nat.toDigits
  rw [toDigitsCore_eq (n + 1) n [] hn (by omega)]
  simp

/-- Reading a decimal numeral back. -/
theorem toDigits_decode (n : Nat) :
    Nat.ofDigits 10 ((Nat.toDigits 10 n).reverse.map (fun c => c.toNat - 48)) = n := by
  rcases Nat.eq_zero_or_pos n with h | h
  · subst h; rfl
  · rw [toDigits_pos n h]
    rw [← List.map_reverse, List.reverse_reverse, List.map_map]
    have : List.map ((fun c => c.toNat - 48) ∘ Nat.digitChar) (Nat.digits 10 n)
        = Nat.digits 10 n := by
      conv_rhs => rw [← List.map_id (Nat.digits 10 n)]
      apply List.map_congr_left
      intro k hk
      exact digitChar_toNat k (Nat.digits_lt_base (by decide) hk)
    rw [this, Nat.ofDigits_digits]

theorem toDigits_injective (n m : Nat) (h : Nat.toDigits 10 n = Nat.toDigits 10 m) : n = m := by
  rw [← toDigits_decode n, ← toDigits_decode m, h]

theorem toDigits_chars (n : Nat) : ∀ c ∈ Nat.toDigits 10 n, c ≠ '_' ∧ c ≠ '-' := by
  rcases Nat.eq_zero_or_pos n with h | h
  · subst h
    intro c hc
    have : c = '0' := by simpa [Nat.toDigits, Nat.toDigitsCore] using hc
    subst this
    decide
  · rw [toDigits_pos n h]
    intro c hc
    simp only [List.mem_map, List.mem_reverse] at hc
    obtain ⟨k, hk, rfl⟩ := hc
    exact digitChar_ne_sep k (Nat.digits_lt_base (by decide) hk)

theorem toDigits_ne_nil (n : Nat) : Nat.toDigits 10 n ≠ [] := by
  intro h
  have := toDigits_decode n
  rw [h] at this
  simp at this
  subst this
  simp [Nat.toDigits, Nat.toDigitsCore] at h

theorem d_data (n : Int) :
    (d n).data = match n with
      | Int.ofNat m => Nat.toDigits 10 m
      | Int.negSucc m => '-' :: Nat.toDigits 10 (m + 1) := by
  cases n <;> rfl

theorem d_no_underscore (n : Int) : '_' ∉ (d n).data := by
  rw [d_data]
  cases n with
  | ofNat m => exact fun h => (toDigits_chars m _ h).1 rfl
  | negSucc m =>
    intro h
    simp only [List.mem_cons] at h
    rcases h with h | h
    · exact absurd h (by decide)
    · exact (toDigits_chars _ _ h).1 rfl

theorem d_injective (n m : Int) (h : d n = d m) : n = m := by
  have hdata : (d n).data = (d m).data := by rw [h]
  rw [d_data, d_data] at hdata
  cases n with
  | ofNat a =>
    cases m with
    | ofNat b => exact congrArg Int.ofNat (toDigits_injective a b hdata)
    | negSucc b =>
      exfalso
      simp only at hdata
      have hmem : '-' ∈ Nat.toDigits 10 a := by rw [hdata]; exact List.mem_cons_self _ _
      exact (toDigits_chars a _ hmem).2 rfl
  | negSucc a =>
    cases m with
    | ofNat b =>
      exfalso
      simp only at hdata
      have hmem : '-' ∈ Nat.toDigits 10 b := by rw [← hdata]; exact List.mem_cons_self _ _
      exact (toDigits_chars b _ hmem).2 rfl
    | negSucc b =>
      simp only [List.cons.injEq, true_and] at hdata
      have := toDigits_injective _ _ hdata
      have hab : a = b := by omega
      rw [hab]

theorem split_at_sep (c : Char) : ∀ (a a' r r' : List Char), c ∉ a → c ∉ a' →
    a ++ c :: r = a' ++ c :: r' → a = a' ∧ r = r' := by
  intro a
  induction a with
  | nil =>
    intro a' r r' _ ha' h
    cases a' with
    | nil => simpa using h
    | cons x xs =>
      simp only [List.nil_append, List.cons_append, List.cons.injEq] at h
      exact absurd (h.1 ▸ List.mem_cons_self _ _) ha'
  | cons x xs ih =>
    intro a' r r' ha ha' h
    cases a' with
    | nil =>
      simp only [List.nil_append, List.cons_append, List.cons.injEq] at h
      exact absurd (h.1 ▸ List.mem_cons_self _ _) ha
    | cons y ys =>
      simp only [List.cons_append, List.cons.injEq] at h
      obtain ⟨hxy, hrest⟩ := h
      have := ih ys r r' (fun hm => ha (List.mem_cons_of_mem _ hm))
        (fun hm => ha' (List.mem_cons_of_mem _ hm)) hrest
      exact ⟨by rw [hxy, this.1], this.2⟩

end fmt

namespace market

theorem coinDetailsKey_injective (id id' : String) (h : coinDetailsKey id = coinDetailsKey id') :
    id = id' := by
  have hd := congrArg String.data h
  simp only [coinDetailsKey, String.data_append] at hd
  exact String.ext (List.append_cancel_left hd)

theorem historicalDataKey_injective (id currency : String) (days : Int)
    (id' currency' : String) (days' : Int)
    (h1 : '_' ∉ id.data) (h1' : '_' ∉ id'.data)
    (h2 : '_' ∉ currency.data) (h2' : '_' ∉ currency'.data)
    (h : historicalDataKey id currency days = historicalDataKey id' currency' days') :
    id = id' ∧ currency = currency' ∧ days = days' := by
  have hd := congrArg String.data h
  simp only [historicalDataKey, String.data_append, List.append_assoc] at hd
  have hd := List.append_cancel_left hd
  simp only [List.singleton_append] at hd
  obtain ⟨hid, hrest⟩ := fmt.split_at_sep '_' _ _ _ _ h1 h1' hd
  obtain ⟨hcur, hdays⟩ := fmt.split_at_sep '_' _ _ _ _ h2 h2' hrest
  exact ⟨String.ext hid, String.ext hcur, fmt.d_injective _ _ (String.ext hdays)⟩

theorem marketDataKey_eq_iff (currency : String) (limit page : Int) (ids : List String)
    (currency' : String) (limit' page' : Int) (ids' : List String)
    (h1 : '_' ∉ currency.data) (h1' : '_' ∉ currency'.data) :
    marketDataKey currency limit page ids = marketDataKey currency' limit' page' ids' ↔
      (currency = currency' ∧ limit = limit' ∧ page = page' ∧
        " ".intercalate ids = " ".intercalate ids') := by
  constructor
  · intro h
    have hd := congrArg String.data h
    simp only [marketDataKey, fmt.vStrings, String.data_append, List.append_assoc] at hd
    have hd := List.append_cancel_left hd
    simp only [List.singleton_append] at hd
    obtain ⟨hcur, hrest⟩ := fmt.split_at_sep '_' _ _ _ _ h1 h1' hd
    obtain ⟨hlim, hrest⟩ := fmt.split_at_sep '_' _ _ _ _ (fmt.d_no_underscore limit)
      (fmt.d_no_underscore limit') hrest
    obtain ⟨hpage, hrest⟩ := fmt.split_at_sep '_' _ _ _ _ (fmt.d_no_underscore page)
      (fmt.d_no_underscore page') hrest
    simp only [List.cons.injEq, true_and] at hrest
    exact ⟨String.ext hcur, fmt.d_injective _ _ (String.ext hlim),
      fmt.d_injective _ _ (String.ext hpage), String.ext (List.append_cancel_right hrest)⟩
  · rintro ⟨rfl, rfl, rfl, hj⟩
    simp only [marketDataKey, fmt.vStrings, hj]

/-- C12 (counterexample).  A string parameter may contain the separator: the
history keys of `("bitcoin_usd", "eur", 7)` and `("bitcoin", "usd_eur", 7)`
coincide, and so do the market keys of the id lists `["a b"]` and `["a", "b"]`,
which are not permutations of one another. -/
theorem C12_counterexample :
    historicalDataKey "bitcoin_usd" "eur" 7 = historicalDataKey "bitcoin" "usd_eur" 7 ∧
    ("bitcoin_usd", "eur") ≠ ("bitcoin", "usd_eur") ∧
    marketDataKey "usd" 100 1 ["a b"] = marketDataKey "usd" 100 1 ["a", "b"] ∧
    ¬ List.Perm ["a b"] ["a", "b"] := by
  refine ⟨by decide, by decide, by decide, ?_⟩
  intro h
  exact absurd h.length_eq (by decide)

/-- C12 (amended).  Cache keys do not collide as long as the string parameters
do not contain the separator `_`: the key of `GetCoinDetails` is injective in
`id` (for all strings); the key of `GetHistoricalData` is injective in
`(id, currency, days)` whenever `id` and `currency` contain no `_`; and two keys
of `GetMarketData` whose `currency` contains no `_` are equal if and only if
currency, limit and page are equal and the two id lists have the same
space-joined rendering. -/
theorem C12_cache_keys_injective :
    (∀ id id' : String, coinDetailsKey id = coinDetailsKey id' → id = id') ∧
    (∀ (id currency : String) (days : Int) (id' currency' : String) (days' : Int),
      '_' ∉ id.data → '_' ∉ id'.data → '_' ∉ currency.data → '_' ∉ currency'.data →
      historicalDataKey id currency days = historicalDataKey id' currency' days' →
      id = id' ∧ currency = currency' ∧ days = days') ∧
    (∀ (currency : String) (limit page : Int) (ids : List String)
       (currency' : String) (limit' page' : Int) (ids' : List String),
      '_' ∉ currency.data → '_' ∉ currency'.data →
      (marketDataKey currency limit page ids = marketDataKey currency' limit' page' ids' ↔
        (currency = currency' ∧ limit = limit' ∧ page = page' ∧
          " ".intercalate ids = " ".intercalate ids'))) :=
  ⟨coinDetailsKey_injective, historicalDataKey_injective, marketDataKey_eq_iff⟩

theorem C12_cache_keys_injective_witness :
    historicalDataKey "bitcoin" "usd" 7 ≠ historicalDataKey "bitcoin" "usd" 30 ∧
    marketDataKey "usd" 100 1 [] ≠ marketDataKey "usd" 100 2 [] :=
  ⟨fun h => absurd (C12_cache_keys_injective.2.1 "bitcoin" "usd" 7 "bitcoin" "usd" 30
      (by decide) (by decide) (by decide) (by decide) h).2.2 (by decide),
   fun h => absurd ((C12_cache_keys_injective.2.2 "usd" 100 1 [] "usd" 100 2 []
      (by decide) (by decide)).mp h).2.2.1 (by decide)⟩

/-- C13 (counterexample).  The ids are printed in the order given: the keys for
`["bitcoin", "ethereum"]` and for its permutation `["ethereum", "bitcoin"]`
differ. -/
theorem C13_counterexample :
    List.Perm ["ethereum", "bitcoin"] ["bitcoin", "ethereum"] ∧
    marketDataKey "usd" 100 1 ["ethereum", "bitcoin"] ≠
      marketDataKey "usd" 100 1 ["bitcoin", "ethereum"] :=
  ⟨List.Perm.swap _ _ _, by decide⟩

/-- C13 (amended).  The cache key of `GetMarketData` depends on `ids` through
their rendering in the order given: for every currency, limit and page and all
lists `ids`, `ids'`, the two keys are equal if and only if the space-joined
renderings of `ids'` and `ids` are equal; in particular the keys of `ids` and of
a permutation `ids'` of it are equal when `ids` has at most one element. -/
theorem C13_key_follows_rendering (currency : String) (limit page : Int)
    (ids ids' : List String) :
    (marketDataKey currency limit page ids' = marketDataKey currency limit page ids ↔
      " ".intercalate ids' = " ".intercalate ids) ∧
    (ids'.Perm ids → ids.length ≤ 1 →
      marketDataKey currency limit page ids' = marketDataKey currency limit page ids) := by
  have hiff : marketDataKey currency limit page ids' = marketDataKey currency limit page ids ↔
      " ".intercalate ids' = " ".intercalate ids := by
    constructor
    · intro h
      have hd := congrArg String.data h
      simp only [marketDataKey, fmt.vStrings, String.data_append, List.append_assoc] at hd
      have hd := List.append_cancel_left (List.append_cancel_left (List.append_cancel_left
        (List.append_cancel_left (List.append_cancel_left (List.append_cancel_left
        (List.append_cancel_left (List.append_cancel_left hd)))))))
      exact String.ext (List.append_cancel_right hd)
    · intro h
      simp only [marketDataKey, fmt.vStrings, h]
  refine ⟨hiff, ?_⟩
  intro hperm hlen
  have hsame : ids' = ids := by
    match ids, hlen, hperm with
    | [], _, hperm => exact List.Perm.eq_nil hperm
    | [x], _, hperm => exact List.perm_singleton.mp hperm
  rw [hsame]

theorem C13_key_follows_rendering_witness :
    marketDataKey "usd" 100 1 ["a", "b c"] = marketDataKey "usd" 100 1 ["a b", "c"] ∧
    marketDataKey "usd" 100 1 ["bitcoin"] = marketDataKey "usd" 100 1 ["bitcoin"] :=
  ⟨(C13_key_follows_rendering "usd" 100 1 ["a b", "c"] ["a", "b c"]).1.mpr (by decide),
   (C13_key_follows_rendering "usd" 100 1 ["bitcoin"] ["bitcoin"]).2 (List.Perm.refl _)
     (by decide)⟩

end market

namespace scheduler

theorem selectLoop_ticks (job : List Event → List Event) (n : Nat) (rest : List Signal) :
    ∀ w, selectLoop job (List.replicate n Signal.tick ++ Signal.stop :: rest) w
      = (job^[n] w, true) := by
  induction n with
  | zero => intro w; rfl
  | succ k ih =>
    intro w
    rw [List.replicate_succ, List.cons_append, selectLoop, ih, Function.iterate_succ_apply]

theorem selectLoop_stop (job : List Event → List Event) (pre post : List Signal) :
    ∀ w, selectLoop job (pre ++ Signal.stop :: post) w = ((selectLoop job pre w).1, true) := by
  induction pre with
  | nil => intro w; rfl
  | cons x xs ih =>
    intro w
    cases x with
    | tick => simp only [List.cons_append, selectLoop]; exact ih _
    | stop => rfl

/-- C14 (counterexample).  With no tick before the stop signal (`n = 0`), the
loops for technical analysis, sentiment analysis and data cleanup return without
having made a single call, where `n + 1 = 1` invocation is claimed; only the
market-data loop has run its job. -/
theorem C14_counterexample :
    Sample.sched.scheduleTechnicalAnalysis [Signal.stop] [] = ([], true) ∧
    Sample.sched.scheduleSentimentAnalysis [Signal.stop] [] = ([], true) ∧
    Sample.sched.scheduleDataCleanup [Signal.stop] [] = ([], true) ∧
    (Sample.sched.scheduleMarketDataCollection [Signal.stop] []).1 ≠ [] := by
  refine ⟨rfl, rfl, rfl, ?_⟩
  decide

/-- C14 (amended).  `scheduleMarketDataCollection` invokes its job once
immediately when it starts, before any tick, and then once per tick: for a run
that sees `n` ticks before the stop signal the job is invoked `n + 1` times in
sequence.  The loops `scheduleTechnicalAnalysis`, `scheduleSentimentAnalysis`
and `scheduleDataCleanup` invoke their job once per tick only: `n` times. -/
theorem C14_loop_invocations (s : SchedulerService) (n : Nat) (rest : List Signal)
    (w : List Event) :
    s.scheduleMarketDataCollection [] w = (s.collectAndStoreMarketData w, false) ∧
    s.scheduleMarketDataCollection (List.replicate n Signal.tick ++ Signal.stop :: rest) w
      = (s.collectAndStoreMarketData^[n + 1] w, true) ∧
    s.scheduleTechnicalAnalysis (List.replicate n Signal.tick ++ Signal.stop :: rest) w
      = ((s.calculateTechnicalIndicators
          ["BTC", "ETH", "BNB", "XRP", "ADA", "SOL", "DOGE", "DOT"])^[n] w, true) ∧
    s.scheduleSentimentAnalysis (List.replicate n Signal.tick ++ Signal.stop :: rest) w
      = ((s.collectSentimentData
          ["BTC", "ETH", "BNB", "XRP", "ADA", "SOL", "DOGE", "DOT"])^[n] w, true) ∧
    s.scheduleDataCleanup (List.replicate n Signal.tick ++ Signal.stop :: rest) w
      = (s.cleanupOldData^[n] w, true) := by
  refine ⟨rfl, ?_, ?_, ?_, ?_⟩
  · unfold SchedulerService.scheduleMarketDataCollection
    rw [selectLoop_ticks, Function.iterate_succ_apply]
  · unfold SchedulerService.scheduleTechnicalAnalysis
    exact selectLoop_ticks _ n rest w
  · unfold SchedulerService.scheduleSentimentAnalysis
    exact selectLoop_ticks _ n rest w
  · unfold SchedulerService.scheduleDataCleanup
    exact selectLoop_ticks _ n rest w

/-- C15.  Scheduler shutdown: in each of the four job loops, once the loop takes
the stop signal it returns, and the events it has produced are exactly those of
the signals received before the stop; whatever ticks come after the stop signal,
the job is not invoked again and no further call is made. -/
theorem C15_no_job_after_stop (s : SchedulerService) (pre post : List Signal)
    (w : List Event) :
    s.scheduleMarketDataCollection (pre ++ Signal.stop :: post) w
      = ((s.scheduleMarketDataCollection pre w).1, true) ∧
    s.scheduleTechnicalAnalysis (pre ++ Signal.stop :: post) w
      = ((s.scheduleTechnicalAnalysis pre w).1, true) ∧
    s.scheduleSentimentAnalysis (pre ++ Signal.stop :: post) w
      = ((s.scheduleSentimentAnalysis pre w).1, true) ∧
    s.scheduleDataCleanup (pre ++ Signal.stop :: post) w
      = ((s.scheduleDataCleanup pre w).1, true) :=
  ⟨selectLoop_stop _ pre post _, selectLoop_stop _ pre post _, selectLoop_stop _ pre post _,
   selectLoop_stop _ pre post _⟩

/-- C16 (the code at the failing input).  With the technical analysis of "BTC"
returning an error, `calculateTechnicalIndicators(["BTC", "ETH"])` calls the
scraper for "BTC" and then at once for "ETH": the `continue` of the error branch
skips the pause, so the trace is not throttled. -/
theorem C16_no_delay_after_error :
    Sample.sched.calculateTechnicalIndicators ["BTC", "ETH"] []
      = [Event.GetTechnicalAnalysis "BTC", Event.GetTechnicalAnalysis "ETH",
         Event.Sleep (5 * time.Second)] ∧
    ¬ Throttled (5 * time.Second)
        (Sample.sched.calculateTechnicalIndicators ["BTC", "ETH"] []) := by
  have htrace : Sample.sched.calculateTechnicalIndicators ["BTC", "ETH"] []
      = [Event.GetTechnicalAnalysis "BTC", Event.GetTechnicalAnalysis "ETH",
         Event.Sleep (5 * time.Second)] := by rfl
  refine ⟨htrace, ?_⟩
  intro h
  have := h [] (Event.GetTechnicalAnalysis "BTC") (Event.GetTechnicalAnalysis "ETH")
    [Event.Sleep (5 * time.Second)] (by rw [htrace]; rfl) rfl
  exact absurd this (by decide)

end scheduler

namespace scraper

/-- C17 (counterexample).  An entry with `Expiration = 10` swept when the clock
reads exactly 10, that is with `now >= expiresAt`, is still in the cache after
`deleteExpired`. -/
theorem C17_counterexample :
    ((CacheService.empty : CacheService Nat).Set 0 "k" 7 10).items "k"
        = some { Value := 7, Expiration := 10 } ∧
    (10 : Int) ≥ 10 ∧
    (((CacheService.empty : CacheService Nat).Set 0 "k" 7 10).deleteExpired 10).items "k"
        = some { Value := 7, Expiration := 10 } := by
  refine ⟨?_, by decide, ?_⟩
  · simp only [CacheService.Set, Function.update_same]
    rfl
  · simp only [CacheService.deleteExpired, CacheService.Set, Function.update_same]
    rfl

theorem sweep_items_iff {V : Type} (c : CacheService V) (now : Time) (k : String)
    (item : CacheItem V) :
    (c.deleteExpired now).items k = some item ↔
      (c.items k = some item ∧ time.UnixNano now ≤ item.Expiration) := by
  unfold CacheService.deleteExpired
  simp only []
  cases h : c.items k with
  | none => simp
  | some v =>
    by_cases hexp : time.UnixNano now > v.Expiration
    · simp only [hexp, if_true, Option.some.injEq]
      constructor
      · intro h'; cases h'
      · rintro ⟨rfl, hle⟩
        exact absurd hexp (not_lt.mpr hle)
    · simp only [hexp, if_false, Option.some.injEq]
      constructor
      · rintro rfl
        exact ⟨rfl, not_lt.mp hexp⟩
      · rintro ⟨rfl, _⟩
        rfl

/-- C17 (amended).  Sweep: for every cache state and time `now`, after
`deleteExpired` run at time `now` the cache holds exactly the entries whose
`Expiration` is not below the clock reading `now.UnixNano()`: every entry with
`now.UnixNano() > Expiration` has been removed and every other entry is kept
with its value and expiry unchanged. -/
theorem C17_sweep_keeps_unexpired {V : Type} (c : CacheService V) (now : Time) (k : String)
    (item : CacheItem V) :
    (c.deleteExpired now).items k = some item ↔
      (c.items k = some item ∧ time.UnixNano now ≤ item.Expiration) :=
  sweep_items_iff c now k item

/-- C18 (counterexample).  With the clock in 2023 and a duration of 9e18 ns (a
legal `time.Duration`), the entry stored by `Set` does not carry the expiry
`now + ttl`: `UnixNano` of `now.Add(ttl)` wraps, and the stored `Expiration` is
the negative number `now + ttl - 2^64`. -/
theorem C18_counterexample :
    (9000000000000000000 : Int) ≤ time.maxDuration ∧
    ((CacheService.empty : CacheService Nat).Set 1700000000000000000 "k" 7
        9000000000000000000).items "k"
      ≠ some { Value := 7, Expiration := 1700000000000000000 + 9000000000000000000 } ∧
    ((CacheService.empty : CacheService Nat).Set 1700000000000000000 "k" 7
        9000000000000000000).items "k"
      = some { Value := 7, Expiration := -7746744073709551616 } := by
  refine ⟨by decide, ?_, ?_⟩
  · simp only [CacheService.Set, time.UnixNano, time.Add, time.wrapInt64,
      Function.update_same]
    decide
  · simp only [CacheService.Set, time.UnixNano, time.Add, time.wrapInt64,
      Function.update_same]
    rfl

/-- C18 (amended).  `Set(k, v, ttl)` at time `now` is an unconditional overwrite:
whatever was stored under `k`, afterwards the entry for `k` is exactly the value
`v` with the expiry `now + ttl`, provided `now + ttl` is representable as
`int64` Unix nanoseconds; and, for every `ttl`, the entry of every other key is
unchanged. -/
theorem C18_set_overwrites {V : Type} (c : CacheService V) (now ttl : Int) (k : String)
    (v : V) :
    (-9223372036854775808 ≤ now + ttl → now + ttl ≤ 9223372036854775807 →
      (c.Set now k v ttl).items k = some { Value := v, Expiration := now + ttl }) ∧
    (∀ k', k' ≠ k → (c.Set now k v ttl).items k' = c.items k') := by
  refine ⟨?_, ?_⟩
  · intro hlo hhi
    have hwrap : time.UnixNano (time.Add now ttl) = now + ttl := by
      simp only [time.UnixNano, time.Add, time.wrapInt64]
      omega
    simp [CacheService.Set, hwrap]
  · intro k' hne
    simp [CacheService.Set, Function.update_noteq hne]

theorem C18_set_overwrites_witness :
    (((CacheService.empty : CacheService Nat).Set 0 "k" 1 5).Set 100 "k" 7 10).items "k"
      = some { Value := 7, Expiration := 110 } ∧
    (((CacheService.empty : CacheService Nat).Set 0 "k" 1 5).Set 100 "j" 7 10).items "k"
      = some { Value := 1, Expiration := 5 } :=
  ⟨(C18_set_overwrites ((CacheService.empty : CacheService Nat).Set 0 "k" 1 5) 100 10 "k" 7).1
      (by decide) (by decide),
   ((C18_set_overwrites ((CacheService.empty : CacheService Nat).Set 0 "k" 1 5) 100 10 "j" 7).2
      "k" (by decide)).trans ((C18_set_overwrites CacheService.empty 0 5 "k" 1).1
        (by decide) (by decide))⟩

theorem step_preserves {V : Type} (s : Tracked V) (now : Int) (op : CacheOp V)
    (hinv : s.ExpiresAfterCreation)
    (hset : ∀ k v (d : Int), op = CacheOp.Set k v d →
      0 < d ∧ -9223372036854775808 ≤ now ∧ now + d ≤ 9223372036854775807) :
    (s.step now op).ExpiresAfterCreation := by
  intro key item hitem
  cases op with
  | Set k v d =>
    obtain ⟨hpos, hlo, hhi⟩ := hset k v d rfl
    simp only [Tracked.step, CacheService.Set] at hitem ⊢
    by_cases hk : key = k
    · subst hk
      rw [Function.update_same] at hitem ⊢
      cases hitem
      refine ⟨now, rfl, ?_⟩
      simp only [time.UnixNano, time.Add, time.wrapInt64]
      omega
    · rw [Function.update_noteq hk] at hitem ⊢
      exact hinv key item hitem
  | Get k => exact hinv key item hitem
  | Delete k =>
    simp only [Tracked.step, CacheService.Delete] at hitem ⊢
    by_cases hk : key = k
    · subst hk
      rw [Function.update_same] at hitem
      cases hitem
    · rw [Function.update_noteq hk] at hitem ⊢
      exact hinv key item hitem
  | deleteExpired =>
    simp only [Tracked.step] at hitem ⊢
    exact hinv key item ((sweep_items_iff s.cache now key item).mp hitem).1

theorem run_preserves {V : Type} (ops : List (Time × CacheOp V)) :
    ∀ s : Tracked V, s.ExpiresAfterCreation →
      (∀ p ∈ ops, ∀ k v (d : Int), p.2 = CacheOp.Set k v d →
        0 < d ∧ (-9223372036854775808 : Int) ≤ p.1 ∧ (p.1 : Int) + d ≤ 9223372036854775807) →
      (s.run ops).ExpiresAfterCreation := by
  induction ops with
  | nil => intro s hinv _; exact hinv
  | cons p rest ih =>
    intro s hinv hops
    unfold Tracked.run
    rw [List.foldl_cons]
    exact ih (s.step p.1 p.2)
      (step_preserves s p.1 p.2 hinv (hops p (List.mem_cons_self p rest)))
      (fun q hq => hops q (List.mem_cons_of_mem p hq))

/-- C19 (counterexample).  `Set` accepts any duration: after `Set("k", 7, 0)` at
time 0 on the empty cache the entry expires at 0, the very instant it was
created, not strictly later. -/
theorem C19_counterexample :
    ¬ (Tracked.run (Tracked.empty : Tracked Nat)
        [(0, CacheOp.Set "k" 7 0)]).ExpiresAfterCreation := by
  intro h
  obtain ⟨t, ht, hlt⟩ := h "k" { Value := 7, Expiration := 0 } (by
    simp only [Tracked.run, List.foldl_cons, List.foldl_nil, Tracked.step, CacheService.Set,
      Function.update_same]
    rfl)
  simp only [Tracked.run, List.foldl_cons, List.foldl_nil, Tracked.step,
    Function.update_same, Option.some.injEq] at ht
  subst ht
  exact absurd hlt (by decide)

/-- C19 (amended).  Cache invariant: in every state reached from the empty
cache by `Set`, `Get`, `Delete` and `deleteExpired`, where every duration passed
to `Set` is positive and the time of the call and the resulting expiry are
representable as `int64` Unix nanoseconds, every stored entry's `Expiration` is
strictly later than the time at which the entry was created. -/
theorem C19_expiry_after_creation {V : Type} (ops : List (Time × CacheOp V))
    (hops : ∀ p ∈ ops, ∀ k v (d : Int), p.2 = CacheOp.Set k v d →
      0 < d ∧ (-9223372036854775808 : Int) ≤ p.1 ∧ (p.1 : Int) + d ≤ 9223372036854775807) :
    (Tracked.run (Tracked.empty : Tracked V) ops).ExpiresAfterCreation :=
  run_preserves ops Tracked.empty (fun key item h => by cases h) hops

theorem C19_expiry_after_creation_witness :
    (Tracked.run (Tracked.empty : Tracked Nat)
      [(0, CacheOp.Set "k" 7 (15 * time.Minute)), (5, CacheOp.Get "k"),
       (10, CacheOp.Set "j" 8 time.Hour), (20, CacheOp.Delete "j"),
       (30, CacheOp.deleteExpired)]).ExpiresAfterCreation :=
  C19_expiry_after_creation _ (by
    intro p hp k v d hd
    simp only [List.mem_cons, List.mem_singleton, List.not_mem_nil, or_false] at hp
    rcases hp with rfl | rfl | rfl | rfl | rfl
    · cases hd; decide
    · cases hd
    · cases hd; decide
    · cases hd
    · cases hd)

end scraper

namespace market

theorem GetCoinDetails_failed (s : Service) (now : Time) (id : String)
    (hcache : s.isCacheValid now (coinDetailsKey id) = false)
    (hstore : found (s.repo.GetCoinDetails id) = none)
    (hcg : found (s.coinGecko.GetCoinDetails id) = none)
    (hcmc : found (s.coinMarketCap.GetCoinDetails id) = none) :
    ∃ ret, s.GetCoinDetails now id = some ret ∧
      ret.err = some ("não foi possível obter detalhes da moeda: " ++
        fmt.vError (s.coinMarketCap.GetCoinDetails id).err) := by
  unfold Service.GetCoinDetails
  simp only [cache_lookup_miss s now _ hcache, hstore, hcg, hcmc]
  exact ⟨_, rfl, rfl⟩

theorem GetHistoricalData_failed (s : Service) (now : Time) (id currency : String) (days : Int)
    (hcache : s.isCacheValid now (historicalDataKey id currency days) = false)
    (hstore : foundHistory (s.repo.GetHistoricalData id currency days) = none)
    (hcg : foundHistory (s.coinGecko.GetHistoricalData id currency days) = none)
    (hcmc : foundHistory (s.coinMarketCap.GetHistoricalData id currency days) = none) :
    ∃ ret, s.GetHistoricalData now id currency days = some ret ∧
      ret.err = some ("não foi possível obter dados históricos: " ++
        fmt.vError (s.coinMarketCap.GetHistoricalData id currency days).err) := by
  unfold Service.GetHistoricalData
  simp only [cache_lookup_miss s now _ hcache, hstore, hcg, hcmc]
  exact ⟨_, rfl, rfl⟩

theorem GetGlobalMarketData_failed (s : Service) (now : Time)
    (hcache : s.isCacheValid now globalMarketDataKey = false)
    (hstore : found s.repo.GetGlobalMarketData = none)
    (hcg : found s.coinGecko.GetGlobalMarketData = none)
    (hcmc : found s.coinMarketCap.GetGlobalMarketData = none) :
    ∃ ret, s.GetGlobalMarketData now = some ret ∧
      ret.err = some ("não foi possível obter dados globais: " ++
        fmt.vError s.coinMarketCap.GetGlobalMarketData.err) := by
  unfold Service.GetGlobalMarketData
  simp only [cache_lookup_miss s now _ hcache, hstore, hcg, hcmc]
  exact ⟨_, rfl, rfl⟩

/-- C20 (counterexample).  With CoinGecko failing on a timeout and CoinMarketCap
on a status 403, the error returned by `GetCoinDetails` is the fixed message
followed by the CoinMarketCap error; the text of the CoinGecko failure does not
occur in it. -/
theorem C20_counterexample :
    (Sample.svcDown.coinGecko.GetCoinDetails "bitcoin").err
      = some "erro ao acessar detalhes da moeda: timeout" ∧
    (∃ ret, Sample.svcDown.GetCoinDetails 0 "bitcoin" = some ret ∧
      ret.err = some "não foi possível obter detalhes da moeda: status code inválido: 403") ∧
    ¬ List.IsInfix "timeout".data
        "não foi possível obter detalhes da moeda: status code inválido: 403".data :=
  ⟨rfl, ⟨_, rfl, rfl⟩, by
    set_option maxRecDepth 20000 in
    decide⟩

/-- C20 (amended).  On total failure of an ordered-fallback operation
(`GetCoinDetails`, `GetHistoricalData`, `GetGlobalMarketData`, on a cache miss
and a store miss with both attempts failing or empty), the single error returned
is the fixed message of the operation followed by the text of the error of
CoinMarketCap, the last provider tried (`<nil>` when CoinMarketCap returned no
error); the failure of CoinGecko is not part of it. -/
theorem C20_error_is_last_failure (s : Service) (now : Time) (id currency : String)
    (days : Int) :
    (s.isCacheValid now (coinDetailsKey id) = false →
      found (s.repo.GetCoinDetails id) = none →
      found (s.coinGecko.GetCoinDetails id) = none →
      found (s.coinMarketCap.GetCoinDetails id) = none →
      ∃ ret, s.GetCoinDetails now id = some ret ∧
        ret.err = some ("não foi possível obter detalhes da moeda: " ++
          fmt.vError (s.coinMarketCap.GetCoinDetails id).err)) ∧
    (s.isCacheValid now (historicalDataKey id currency days) = false →
      foundHistory (s.repo.GetHistoricalData id currency days) = none →
      foundHistory (s.coinGecko.GetHistoricalData id currency days) = none →
      foundHistory (s.coinMarketCap.GetHistoricalData id currency days) = none →
      ∃ ret, s.GetHistoricalData now id currency days = some ret ∧
        ret.err = some ("não foi possível obter dados históricos: " ++
          fmt.vError (s.coinMarketCap.GetHistoricalData id currency days).err)) ∧
    (s.isCacheValid now globalMarketDataKey = false →
      found s.repo.GetGlobalMarketData = none →
      found s.coinGecko.GetGlobalMarketData = none →
      found s.coinMarketCap.GetGlobalMarketData = none →
      ∃ ret, s.GetGlobalMarketData now = some ret ∧
        ret.err = some ("não foi possível obter dados globais: " ++
          fmt.vError s.coinMarketCap.GetGlobalMarketData.err)) :=
  ⟨GetCoinDetails_failed s now id, GetHistoricalData_failed s now id currency days,
   GetGlobalMarketData_failed s now⟩

theorem C20_error_is_last_failure_witness :
    (∃ ret, Sample.svcDown.GetCoinDetails 0 "bitcoin" = some ret ∧
      ret.err = some ("não foi possível obter detalhes da moeda: " ++
        fmt.vError (some "status code inválido: 403"))) ∧
    (∃ ret, Sample.svcDown.GetHistoricalData 0 "bitcoin" "usd" 7 = some ret ∧
      ret.err = some ("não foi possível obter dados históricos: " ++
        fmt.vError (some "status code inválido: 403"))) ∧
    (∃ ret, Sample.svcDown.GetGlobalMarketData 0 = some ret ∧
      ret.err = some ("não foi possível obter dados globais: " ++
        fmt.vError (some "status code inválido: 403"))) :=
  ⟨(C20_error_is_last_failure Sample.svcDown 0 "bitcoin" "usd" 7).1 rfl rfl rfl rfl,
   (C20_error_is_last_failure Sample.svcDown 0 "bitcoin" "usd" 7).2.1 rfl rfl rfl rfl,
   (C20_error_is_last_failure Sample.svcDown 0 "bitcoin" "usd" 7).2.2 rfl rfl rfl rfl⟩

/-- C21.  Persistence failures are never surfaced: for each of the four
operations and all inputs, what the call leaves behind (the value and error
returned, the cache written, the calls made) is the same whatever the four
`Save*` methods of the store answer, be it success or any error. -/
theorem C21_save_outcome_not_surfaced (s : Service) (now : Time)
    (saveMarketData : List models.CryptoData → Option String)
    (saveCoinDetails : models.CoinDetails → Option String)
    (saveHistoricalData : models.HistoricalData → Option String)
    (saveGlobalMarketData : models.GlobalMarketData → Option String) :
    (∀ cmcFirst currency limit page ids,
      Service.GetMarketData
          { s with repo := { s.repo with SaveMarketData := saveMarketData,
                                         SaveCoinDetails := saveCoinDetails,
                                         SaveHistoricalData := saveHistoricalData,
                                         SaveGlobalMarketData := saveGlobalMarketData } }
          now cmcFirst currency limit page ids
        = s.GetMarketData now cmcFirst currency limit page ids) ∧
    (∀ id,
      Service.GetCoinDetails
          { s with repo := { s.repo with SaveMarketData := saveMarketData,
                                         SaveCoinDetails := saveCoinDetails,
                                         SaveHistoricalData := saveHistoricalData,
                                         SaveGlobalMarketData := saveGlobalMarketData } }
          now id
        = s.GetCoinDetails now id) ∧
    (∀ id currency days,
      Service.GetHistoricalData
          { s with repo := { s.repo with SaveMarketData := saveMarketData,
                                         SaveCoinDetails := saveCoinDetails,
                                         SaveHistoricalData := saveHistoricalData,
                                         SaveGlobalMarketData := saveGlobalMarketData } }
          now id currency days
        = s.GetHistoricalData now id currency days) ∧
    Service.GetGlobalMarketData
        { s with repo := { s.repo with SaveMarketData := saveMarketData,
                                       SaveCoinDetails := saveCoinDetails,
                                       SaveHistoricalData := saveHistoricalData,
                                       SaveGlobalMarketData := saveGlobalMarketData } }
        now
      = s.GetGlobalMarketData now :=
  ⟨fun _ _ _ _ _ => rfl, fun _ => rfl, fun _ _ _ => rfl, rfl⟩

theorem GetMarketData_fill (s : Service) (now : Time) (cmcFirst : Bool) (currency : String)
    (limit page : Int) (ids : List String) (ret : Ret (List models.CryptoData))
    (hmiss : s.isCacheValid now (marketDataKey currency limit page ids) = false)
    (hcall : s.GetMarketData now cmcFirst currency limit page ids = some ret)
    (hok : ret.err = none) :
    ret.cache (marketDataKey currency limit page ids) =
      some { data := Payload.marketData ret.val, timestamp := now,
             expiry := 5 * time.Minute } := by
  unfold Service.GetMarketData at hcall
  simp only [cache_lookup_miss s now _ hmiss] at hcall
  repeat' split at hcall
  all_goals cases hcall
  all_goals first
    | (simp [Service.setCache]; done)
    | simp at hok

theorem GetHistoricalData_fill (s : Service) (now : Time) (id currency : String) (days : Int)
    (ret : Ret (Option models.HistoricalData))
    (hmiss : s.isCacheValid now (historicalDataKey id currency days) = false)
    (hcall : s.GetHistoricalData now id currency days = some ret) (hok : ret.err = none) :
    ∃ d, ret.val = some d ∧
      ret.cache (historicalDataKey id currency days) =
        some { data := Payload.historicalData d, timestamp := now,
               expiry := 1 * time.Hour } := by
  unfold Service.GetHistoricalData at hcall
  simp only [cache_lookup_miss s now _ hmiss] at hcall
  repeat' split at hcall
  all_goals cases hcall
  all_goals first
    | exact ⟨_, rfl, by simp [Service.setCache]⟩
    | exact absurd hok (by simp)

theorem GetGlobalMarketData_fill (s : Service) (now : Time)
    (ret : Ret (Option models.GlobalMarketData))
    (hmiss : s.isCacheValid now globalMarketDataKey = false)
    (hcall : s.GetGlobalMarketData now = some ret) (hok : ret.err = none) :
    ∃ d, ret.val = some d ∧
      ret.cache globalMarketDataKey =
        some { data := Payload.globalMarketData d, timestamp := now,
               expiry := 15 * time.Minute } := by
  unfold Service.GetGlobalMarketData at hcall
  simp only [cache_lookup_miss s now _ hmiss] at hcall
  repeat' split at hcall
  all_goals cases hcall
  all_goals first
    | exact ⟨_, rfl, by simp [Service.setCache]⟩
    | exact absurd hok (by simp)

/-- C22.  Kind-specific TTLs: whenever an operation returns successfully after
a cache miss, from a store hit or from a live fetch alike, the cache entry found
afterwards under the key of the operation holds the returned value, stamped with
the time of the call, with expiry 5 minutes for `GetMarketData`, 10 minutes for
`GetCoinDetails`, 1 hour for `GetHistoricalData` and 15 minutes for
`GetGlobalMarketData`. -/
theorem C22_kind_specific_ttl (s : Service) (now : Time) :
    (∀ cmcFirst currency limit page ids ret,
      s.isCacheValid now (marketDataKey currency limit page ids) = false →
      s.GetMarketData now cmcFirst currency limit page ids = some ret → ret.err = none →
      ret.cache (marketDataKey currency limit page ids) =
        some { data := Payload.marketData ret.val, timestamp := now,
               expiry := 5 * time.Minute }) ∧
    (∀ id ret, s.isCacheValid now (coinDetailsKey id) = false →
      s.GetCoinDetails now id = some ret → ret.err = none →
      ∃ d, ret.val = some d ∧
        ret.cache (coinDetailsKey id) =
          some { data := Payload.coinDetails d, timestamp := now,
                 expiry := 10 * time.Minute }) ∧
    (∀ id currency days ret, s.isCacheValid now (historicalDataKey id currency days) = false →
      s.GetHistoricalData now id currency days = some ret → ret.err = none →
      ∃ d, ret.val = some d ∧
        ret.cache (historicalDataKey id currency days) =
          some { data := Payload.historicalData d, timestamp := now,
                 expiry := 1 * time.Hour }) ∧
    (∀ ret, s.isCacheValid now globalMarketDataKey = false →
      s.GetGlobalMarketData now = some ret → ret.err = none →
      ∃ d, ret.val = some d ∧
        ret.cache globalMarketDataKey =
          some { data := Payload.globalMarketData d, timestamp := now,
                 expiry := 15 * time.Minute }) :=
  ⟨fun cmcFirst currency limit page ids ret =>
      GetMarketData_fill s now cmcFirst currency limit page ids ret,
   fun id ret => GetCoinDetails_fill s now id ret,
   fun id currency days ret => GetHistoricalData_fill s now id currency days ret,
   fun ret => GetGlobalMarketData_fill s now ret⟩

theorem C22_kind_specific_ttl_witness :
    (∃ ret, Sample.svcCmcOnly.GetMarketData 0 true "usd" 100 1 [] = some ret ∧
      ret.cache (marketDataKey "usd" 100 1 []) =
        some { data := Payload.marketData ret.val, timestamp := 0,
               expiry := 5 * time.Minute }) ∧
    (∃ ret d, Sample.svcCgOnly.GetCoinDetails 0 "bitcoin" = some ret ∧ ret.val = some d ∧
      ret.cache (coinDetailsKey "bitcoin") =
        some { data := Payload.coinDetails d, timestamp := 0, expiry := 10 * time.Minute }) ∧
    (∃ ret d, Sample.svcCgOnly.GetHistoricalData 0 "bitcoin" "usd" 7 = some ret ∧
      ret.val = some d ∧
      ret.cache (historicalDataKey "bitcoin" "usd" 7) =
        some { data := Payload.historicalData d, timestamp := 0, expiry := 1 * time.Hour }) ∧
    (∃ ret d, Sample.svcStoredGlobal.GetGlobalMarketData Sample.halfHourLater = some ret ∧
      ret.val = some d ∧
      ret.cache globalMarketDataKey =
        some { data := Payload.globalMarketData d, timestamp := Sample.halfHourLater,
               expiry := 15 * time.Minute }) := by
  refine ⟨⟨_, rfl, ?_⟩, ?_, ?_, ?_⟩
  · exact (C22_kind_specific_ttl Sample.svcCmcOnly 0).1 true "usd" 100 1 [] _ rfl rfl rfl
  · obtain ⟨d, hd, hc⟩ :=
      (C22_kind_specific_ttl Sample.svcCgOnly 0).2.1 "bitcoin" _ rfl rfl rfl
    exact ⟨_, d, rfl, hd, hc⟩
  · obtain ⟨d, hd, hc⟩ :=
      (C22_kind_specific_ttl Sample.svcCgOnly 0).2.2.1 "bitcoin" "usd" 7 _ rfl rfl rfl
    exact ⟨_, d, rfl, hd, hc⟩
  · obtain ⟨d, hd, hc⟩ :=
      (C22_kind_specific_ttl Sample.svcStoredGlobal Sample.halfHourLater).2.2.2 _ rfl rfl rfl
    exact ⟨_, d, rfl, hd, hc⟩

/-- C26.  The live fetch of `GetMarketData` ignores currency, page and ids: on a
cache miss and a store miss (a store error or an empty page), for the same limit
and the same provider answers, two calls that differ in currency, page and ids
return the same list (the merged provider items when there are any) and agree on
whether they fail. -/
theorem C26_live_fetch_ignores_request (s : Service) (now : Time) (cmcFirst : Bool)
    (limit : Int) (currency : String) (page : Int) (ids : List String)
    (currency' : String) (page' : Int) (ids' : List String)
    (hcache : s.isCacheValid now (marketDataKey currency limit page ids) = false)
    (hstore : ¬ ((s.repo.GetMarketData currency limit page ids).err = none ∧
      (s.repo.GetMarketData currency limit page ids).val.length > 0))
    (hcache' : s.isCacheValid now (marketDataKey currency' limit page' ids') = false)
    (hstore' : ¬ ((s.repo.GetMarketData currency' limit page' ids').err = none ∧
      (s.repo.GetMarketData currency' limit page' ids').val.length > 0)) :
    ∃ ret ret', s.GetMarketData now cmcFirst currency limit page ids = some ret ∧
      s.GetMarketData now cmcFirst currency' limit page' ids' = some ret' ∧
      ret.val = ret'.val ∧ (ret.err = none ↔ ret'.err = none) ∧
      ret.val = (if cmcFirst then
          succeededItems (s.coinMarketCap.GetMarketData limit) ++
            succeededItems (s.coinGecko.GetMarketData limit)
        else succeededItems (s.coinGecko.GetMarketData limit) ++
            succeededItems (s.coinMarketCap.GetMarketData limit)) := by
  obtain ⟨ret, hret, _, hnil, hcons⟩ :=
    GetMarketData_live s now cmcFirst currency limit page ids hcache hstore _ rfl
  obtain ⟨ret', hret', _, hnil', hcons'⟩ :=
    GetMarketData_live s now cmcFirst currency' limit page' ids' hcache' hstore' _ rfl
  refine ⟨ret, ret', hret, hret', ?_⟩
  by_cases hitems : (if cmcFirst then
          succeededItems (s.coinMarketCap.GetMarketData limit) ++
            succeededItems (s.coinGecko.GetMarketData limit)
        else succeededItems (s.coinGecko.GetMarketData limit) ++
            succeededItems (s.coinMarketCap.GetMarketData limit)) = []
  · obtain ⟨herr, hval, _, _⟩ := hnil hitems
    obtain ⟨herr', hval', _, _⟩ := hnil' hitems
    refine ⟨by rw [hval, hval'], ⟨fun h => absurd h herr, fun h => absurd h herr'⟩, ?_⟩
    rw [hval, hitems]
  · obtain ⟨herr, hval, _, _⟩ := hcons hitems
    obtain ⟨herr', hval', _, _⟩ := hcons' hitems
    exact ⟨by rw [hval, hval'], ⟨fun _ => herr', fun _ => herr⟩, hval⟩

theorem C26_live_fetch_ignores_request_witness :
    ∃ ret ret', Sample.svcCmcOnly.GetMarketData 0 true "usd" 100 1 [] = some ret ∧
      Sample.svcCmcOnly.GetMarketData 0 true "eur" 100 2 ["ethereum"] = some ret' ∧
      ret.val = ret'.val ∧
      ret'.val = [Sample.cmcBitcoin, Sample.cmcEthereum, Sample.cmcRipple] := by
  obtain ⟨ret, ret', h, h', hval, _, hitems⟩ :=
    C26_live_fetch_ignores_request Sample.svcCmcOnly 0 true 100 "usd" 1 [] "eur" 2
      ["ethereum"] rfl (by decide) rfl (by decide)
  refine ⟨ret, ret', h, h', hval, ?_⟩
  rw [← hval, hitems]
  rfl

end market

namespace scraper

/-- C28.  The sweep is invisible to readers: for every cache state, key `k` and
time `now`, `Get(k)` at time `now` returns the same pair before and after
`deleteExpired` run at the same time `now`; an entry the sweep removes is one
that `Get` already reports as not found. -/
theorem C28_sweep_invisible {V : Type} (c : CacheService V) (now : Time) (k : String) :
    (c.deleteExpired now).Get now k = c.Get now k ∧
    ((c.deleteExpired now).items k ≠ c.items k → c.Get now k = (none, false)) := by
  unfold CacheService.Get CacheService.deleteExpired
  simp only []
  cases h : c.items k with
  | none => simp
  | some item =>
    by_cases hexp : time.UnixNano now > item.Expiration
    · simp [hexp]
    · simp [hexp]

theorem C28_sweep_invisible_witness :
    (((CacheService.empty : CacheService Nat).Set 0 "k" 7 10).deleteExpired 11).Get 11 "k"
      = ((CacheService.empty : CacheService Nat).Set 0 "k" 7 10).Get 11 "k" ∧
    ((CacheService.empty : CacheService Nat).Set 0 "k" 7 10).Get 11 "k" = (none, false) :=
  ⟨(C28_sweep_invisible ((CacheService.empty : CacheService Nat).Set 0 "k" 7 10) 11 "k").1,
   (C28_sweep_invisible ((CacheService.empty : CacheService Nat).Set 0 "k" 7 10) 11 "k").2
     (by
        simp only [CacheService.deleteExpired, CacheService.Set, Function.update_same]
        decide)⟩

end scraper

namespace scheduler

/-- C23.  Retention cleanup: every run of `cleanupOldData` makes exactly one
call on its collaborators, a `DeleteOldData` on the store, whose cutoff is the
clock reading moved back by 90 calendar days (`AddDate(0, 0, -90)`): the same
wall clock 90 days earlier in the time zone of the process whenever that wall
clock exists there, which in UTC is the instant `now - 90 * 24 h`. -/
theorem C23_cleanup_one_delete (s : SchedulerService) (w : List Event) :
    s.cleanupOldData w
      = w ++ [Event.DeleteOldData (time.AddDays s.location (s.now w) (-90))] ∧
    (s.location = time.UTC →
      time.AddDays s.location (s.now w) (-90) = s.now w - 90 * (24 * time.Hour)) ∧
    (s.location.toCivil (s.location.fromCivil
        (s.location.toCivil (s.now w) + (-90) * (24 * time.Hour)))
        = s.location.toCivil (s.now w) + (-90) * (24 * time.Hour) →
      s.location.toCivil (time.AddDays s.location (s.now w) (-90))
        = s.location.toCivil (s.now w) - 90 * (24 * time.Hour)) := by
  refine ⟨rfl, ?_, ?_⟩
  · intro hutc
    rw [hutc]
    simp only [time.AddDays, time.UTC]
    ring
  · intro hres
    simp only [time.AddDays]
    rw [hres]
    ring

theorem C23_cleanup_one_delete_witness :
    Sample.sched.cleanupOldData []
      = [Event.DeleteOldData (1700000000000000000 - 90 * (24 * time.Hour))] := by
  have h := C23_cleanup_one_delete Sample.sched []
  rw [h.1, h.2.1 rfl]
  rfl

end scheduler

namespace inmemory

/-- C30.  The in-memory store keys historical series by id only:
`SaveHistoricalData` replaces the series stored for `data.ID` unconditionally
and leaves the other ids alone, and `GetHistoricalData(id, currency, days)`
returns the same answer for every currency and every days; so a series saved
for one `(currency, days)` is what the store answers for every other
`(currency, days)` of the same id, and what `market.Service.GetHistoricalData`
then returns on a cache miss, without calling a provider, provided the series
has at least one price point. -/
theorem C30_history_keyed_by_id (r : CryptoRepository) (data : models.HistoricalData)
    (currency currency' : String) (days days' : Int) :
    (r.SaveHistoricalData data).1.GetHistoricalData data.ID currency days = ⟨some data, none⟩ ∧
    (∀ id, r.GetHistoricalData id currency days = r.GetHistoricalData id currency' days') ∧
    (∀ id, id ≠ data.ID →
      (r.SaveHistoricalData data).1.historicalData id = r.historicalData id) ∧
    (∀ (s : market.Service) (now : Time),
      s.repo.GetHistoricalData = (r.SaveHistoricalData data).1.GetHistoricalData →
      s.isCacheValid now (market.historicalDataKey data.ID currency' days') = false →
      data.Prices.length > 0 →
      ∃ ret, s.GetHistoricalData now data.ID currency' days' = some ret ∧
        ret.val = some data ∧ ret.err = none ∧ ret.calls = []) := by
  have hget : ∀ c d, (r.SaveHistoricalData data).1.GetHistoricalData data.ID c d
      = ⟨some data, none⟩ := by
    intro c d
    simp [CryptoRepository.SaveHistoricalData, CryptoRepository.GetHistoricalData]
  refine ⟨hget currency days, fun id => rfl, ?_, ?_⟩
  · intro id hne
    simp [CryptoRepository.SaveHistoricalData, Function.update_noteq hne]
  · intro s now hrepo hmiss hprices
    have hfound : market.foundHistory (s.repo.GetHistoricalData data.ID currency' days')
        = some data := by
      rw [hrepo, hget]
      simp only [market.foundHistory]
      rw [if_pos hprices]
    refine ⟨{ val := some data, err := none,
              cache := s.setCache now (market.historicalDataKey data.ID currency' days')
                (.historicalData data) (1 * time.Hour),
              calls := [], reads := [.GetHistoricalData], saved := none },
      ?_, rfl, rfl, rfl⟩
    unfold market.Service.GetHistoricalData
    simp only [market.cache_lookup_miss s now _ hmiss, hfound]

theorem C30_history_keyed_by_id_witness :
    ∃ ret, market.Service.GetHistoricalData
        { Sample.svcDown with
          repo := { Sample.emptyStore with
            GetHistoricalData :=
              (NewCryptoRepository.SaveHistoricalData Sample.history).1.GetHistoricalData } }
        0 "bitcoin" "eur" 365 = some ret ∧
      ret.val = some Sample.history ∧ ret.err = none ∧ ret.calls = [] :=
  (C30_history_keyed_by_id NewCryptoRepository Sample.history "usd" "eur" 7 365).2.2.2
    { Sample.svcDown with
      repo := { Sample.emptyStore with
        GetHistoricalData :=
          (NewCryptoRepository.SaveHistoricalData Sample.history).1.GetHistoricalData } }
    0 rfl rfl (by decide)

theorem saveCrypto_zero (r : CryptoRepository) (y : models.CryptoData)
    (hr : ∀ id x, r.marketData id = some x → x.LastUpdated = time.zeroTime)
    (hy : y.LastUpdated = time.zeroTime) :
    (∀ id x, (r.saveCrypto y).marketData id = some x → x.LastUpdated = time.zeroTime) ∧
    (∀ id x, r.marketData id = some x → (r.saveCrypto y).marketData id = some x) := by
  constructor
  · intro id x hx
    rw [saveCrypto_marketData] at hx
    by_cases hid : id = y.ID
    · rw [if_pos hid] at hx
      cases hz : r.marketData y.ID with
      | none =>
        rw [hz] at hx
        cases hx
        exact hy
      | some e =>
        rw [hz] at hx
        have he := hr y.ID e hz
        have hnot : ¬ e.LastUpdated < y.LastUpdated := by rw [he, hy]; exact lt_irrefl _
        simp only [hnot, if_false, Option.some.injEq] at hx
        rw [← hx]
        exact he
    · rw [if_neg hid] at hx
      exact hr id x hx
  · intro id x hx
    rw [saveCrypto_marketData]
    by_cases hid : id = y.ID
    · rw [if_pos hid]
      rw [hid] at hx
      rw [hx]
      have he := hr y.ID x hx
      have hnot : ¬ x.LastUpdated < y.LastUpdated := by rw [he, hy]; exact lt_irrefl _
      simp only [hnot, if_false]
    · rw [if_neg hid]
      exact hx

theorem foldl_saveCrypto_zero (b : List models.CryptoData) :
    ∀ r : CryptoRepository,
      (∀ id x, r.marketData id = some x → x.LastUpdated = time.zeroTime) →
      (∀ y ∈ b, y.LastUpdated = time.zeroTime) →
      (∀ id x, (b.foldl CryptoRepository.saveCrypto r).marketData id = some x →
        x.LastUpdated = time.zeroTime) ∧
      (∀ id x, r.marketData id = some x →
        (b.foldl CryptoRepository.saveCrypto r).marketData id = some x) := by
  induction b with
  | nil => intro r hr _; exact ⟨hr, fun _ _ h => h⟩
  | cons y rest ih =>
    intro r hr hb
    have hstep := saveCrypto_zero r y hr (hb y (List.mem_cons_self y rest))
    have hrest := ih (r.saveCrypto y) hstep.1 (fun z hz => hb z (List.mem_cons_of_mem y hz))
    rw [List.foldl_cons]
    exact ⟨hrest.1, fun id x hx => hrest.2 id x (hstep.2 id x hx)⟩

theorem keptRows_lastUpdated (source : String) (rows : List client.Row) (limit : Int) :
    ∀ x ∈ client.keptRows source rows limit, x.LastUpdated = time.zeroTime := by
  intro x hx
  simp only [client.keptRows, List.mem_filter, List.mem_map] at hx
  obtain ⟨⟨row, _, rfl⟩, _⟩ := hx
  rfl

theorem client_lastUpdated (page : client.Page) (limit : Int) (source : String)
    (msg : String → String) :
    ∀ r : Res (List models.CryptoData),
      r = (match page with
        | .unreachable err => ⟨[], some (msg err)⟩
        | .badStatus code => ⟨[], some ("status code inválido: " ++ toString code)⟩
        | .parseFailure err => ⟨[], some ("erro ao parsear HTML: " ++ err)⟩
        | .document rows =>
          if (client.keptRows source rows limit).length = 0 then
            ⟨[], some "nenhum dado de criptomoeda encontrado"⟩
          else ⟨client.keptRows source rows limit, none⟩) →
      ∀ x ∈ r.val, x.LastUpdated = time.zeroTime := by
  intro r hr x hx
  subst hr
  cases page with
  | unreachable err => simp at hx
  | badStatus code => simp at hx
  | parseFailure err => simp at hx
  | document rows =>
    by_cases h : (client.keptRows source rows limit).length = 0
    · simp [h] at hx
    · simp only [h, if_false] at hx
      exact keptRows_lastUpdated _ _ _ x hx

theorem coinGecko_lastUpdated (cg : client.CoinGeckoScraper) (limit : Int) :
    ∀ x ∈ (cg.GetMarketData limit).val, x.LastUpdated = time.zeroTime :=
  client_lastUpdated _ _ "coingecko" (fun err => "erro ao acessar CoinGecko: " ++ err) _ rfl

theorem coinMarketCap_lastUpdated (cmc : client.CoinMarketCapScraper) (limit : Int) :
    ∀ x ∈ (cmc.GetMarketData limit).val, x.LastUpdated = time.zeroTime :=
  client_lastUpdated _ _ "coinmarketcap"
    (fun err => "erro ao acessar CoinMarketCap: " ++ err) _ rfl

/-- C25.  Stored snapshot records are never refreshed by provider output: every
record returned by either provider client has the zero `LastUpdated`; for
every two batches `b1`, `b2` of such records, `SaveMarketData(b2)` after
`SaveMarketData(b1)` on an empty store leaves every record stored by `b1`
exactly as it was; and one turn of the loop of `SaveMarketData` leaves the store
as it is whenever the incoming record is not strictly newer than the one stored
under its id. -/
theorem C25_provider_records_never_refreshed :
    (∀ (cg : client.CoinGeckoScraper) (limit : Int),
      ∀ x ∈ (cg.GetMarketData limit).val, x.LastUpdated = time.zeroTime) ∧
    (∀ (cmc : client.CoinMarketCapScraper) (limit : Int),
      ∀ x ∈ (cmc.GetMarketData limit).val, x.LastUpdated = time.zeroTime) ∧
    (∀ b1 b2 : List models.CryptoData,
      (∀ x ∈ b1, x.LastUpdated = time.zeroTime) → (∀ x ∈ b2, x.LastUpdated = time.zeroTime) →
      ∀ id x, (NewCryptoRepository.SaveMarketData b1).1.marketData id = some x →
        ((NewCryptoRepository.SaveMarketData b1).1.SaveMarketData b2).1.marketData id
          = some x) ∧
    (∀ (r : CryptoRepository) (crypto existing : models.CryptoData),
      r.marketData crypto.ID = some existing →
      ¬ existing.LastUpdated < crypto.LastUpdated →
      (r.SaveMarketData [crypto]).1 = r) := by
  refine ⟨coinGecko_lastUpdated, coinMarketCap_lastUpdated, ?_, ?_⟩
  · intro b1 b2 h1 h2 id x hx
    have hzero := (foldl_saveCrypto_zero b1 NewCryptoRepository
      (fun _ _ h => by simp [NewCryptoRepository] at h) h1).1
    exact (foldl_saveCrypto_zero b2 _ hzero h2).2 id x hx
  · intro r crypto existing he hle
    simp only [CryptoRepository.SaveMarketData, List.foldl_cons, List.foldl_nil]
    exact saveCrypto_of_not_after r crypto existing he hle

theorem C25_provider_records_never_refreshed_witness :
    ((NewCryptoRepository.SaveMarketData
        (Sample.svcCmcOnly.coinMarketCap.GetMarketData 100).val).1.SaveMarketData
        (Sample.svcCgOnly.coinGecko.GetMarketData 100).val).1.marketData "bitcoin"
      = some Sample.cmcBitcoin :=
  C25_provider_records_never_refreshed.2.2.1 _ _
    (C25_provider_records_never_refreshed.2.1 Sample.svcCmcOnly.coinMarketCap 100)
    (C25_provider_records_never_refreshed.1 Sample.svcCgOnly.coinGecko 100)
    "bitcoin" Sample.cmcBitcoin (by
      simp only [CryptoRepository.SaveMarketData]
      rfl)

theorem saveCrypto_covers (r : CryptoRepository) (y : models.CryptoData) :
    ∃ e, (r.saveCrypto y).marketData y.ID = some e ∧ y.LastUpdated ≤ e.LastUpdated := by
  rw [saveCrypto_marketData, if_pos rfl]
  cases hz : r.marketData y.ID with
  | none => exact ⟨y, rfl, le_refl _⟩
  | some e =>
    by_cases hlt : e.LastUpdated < y.LastUpdated
    · exact ⟨y, by simp [hlt], le_refl _⟩
    · exact ⟨e, by simp [hlt], not_lt.mp hlt⟩

theorem saveCrypto_keeps_cover (r : CryptoRepository) (x y : models.CryptoData)
    (h : ∃ e, r.marketData x.ID = some e ∧ x.LastUpdated ≤ e.LastUpdated) :
    ∃ e, (r.saveCrypto y).marketData x.ID = some e ∧ x.LastUpdated ≤ e.LastUpdated := by
  obtain ⟨e, he, hle⟩ := h
  rw [saveCrypto_marketData]
  by_cases hid : x.ID = y.ID
  · rw [if_pos hid, ← hid, he]
    by_cases hlt : e.LastUpdated < y.LastUpdated
    · exact ⟨y, by simp [hlt], le_trans hle (le_of_lt hlt)⟩
    · exact ⟨e, by simp [hlt], hle⟩
  · rw [if_neg hid]
    exact ⟨e, he, hle⟩

theorem foldl_keeps_cover (xs : List models.CryptoData) (x : models.CryptoData) :
    ∀ r : CryptoRepository,
      (∃ e, r.marketData x.ID = some e ∧ x.LastUpdated ≤ e.LastUpdated) →
      ∃ e, (xs.foldl CryptoRepository.saveCrypto r).marketData x.ID = some e ∧
        x.LastUpdated ≤ e.LastUpdated := by
  induction xs with
  | nil => intro r h; exact h
  | cons y rest ih =>
    intro r h
    rw [List.foldl_cons]
    exact ih _ (saveCrypto_keeps_cover r x y h)

theorem foldl_covers (xs : List models.CryptoData) :
    ∀ r : CryptoRepository, ∀ x ∈ xs,
      ∃ e, (xs.foldl CryptoRepository.saveCrypto r).marketData x.ID = some e ∧
        x.LastUpdated ≤ e.LastUpdated := by
  induction xs with
  | nil => intro r x hx; cases hx
  | cons y rest ih =>
    intro r x hx
    rw [List.foldl_cons]
    rcases List.mem_cons.mp hx with rfl | hmem
    · exact foldl_keeps_cover rest x _ (saveCrypto_covers r x)
    · exact ih _ x hmem

/-- C29.  `SaveMarketData` is idempotent: for every store `r` and every item
list `xs` (duplicated ids and any timestamps allowed), saving `xs` a second time
leaves the store as the first save made it. -/
theorem C29_save_idempotent (r : CryptoRepository) (xs : List models.CryptoData) :
    ((r.SaveMarketData xs).1.SaveMarketData xs).1 = (r.SaveMarketData xs).1 := by
  simp only [CryptoRepository.SaveMarketData]
  apply foldl_saveCrypto_of_not_after
  intro x hx
  obtain ⟨e, he, hle⟩ := foldl_covers xs r x hx
  exact ⟨e, he, not_lt.mpr hle⟩

end inmemory

namespace market

theorem marketDataKey_head (currency : String) (limit page : Int) (ids : List String) :
    (marketDataKey currency limit page ids).data.head? = some 'm' := by
  simp [marketDataKey, String.data_append]

theorem coinDetailsKey_head (id : String) : (coinDetailsKey id).data.head? = some 'c' := by
  simp [coinDetailsKey, String.data_append]

theorem historicalDataKey_head (id currency : String) (days : Int) :
    (historicalDataKey id currency days).data.head? = some 'h' := by
  simp [historicalDataKey, String.data_append]

theorem globalMarketDataKey_head : globalMarketDataKey.data.head? = some 'g' := by
  decide

theorem setCache_wellTyped (s : Service) (now : Time) (key : String) (data : Payload)
    (expiry : Duration) (hw : WellTyped s.cache) (hkey : key.data.head? = some data.tag) :
    WellTyped (s.setCache now key data expiry) := by
  intro k item hitem
  unfold Service.setCache at hitem
  by_cases hk : k = key
  · subst hk
    rw [Function.update_same] at hitem
    cases hitem
    exact hkey
  · rw [Function.update_noteq hk] at hitem
    exact hw k item hitem

theorem cache_lookup_cases (s : Service) (now : Time) (key : String) :
    (if s.isCacheValid now key then s.getCache key else (none, false)) = (none, false) ∨
    ∃ item, s.cache key = some item ∧
      (if s.isCacheValid now key then s.getCache key else (none, false))
        = (some item.data, true) := by
  unfold Service.isCacheValid Service.getCache
  cases h : s.cache key with
  | none => left; simp
  | some item =>
    by_cases hv : time.Since now item.timestamp < item.expiry
    · right
      exact ⟨item, rfl, by simp [hv]⟩
    · left
      simp [hv]

theorem GetCoinDetails_wellTyped (s : Service) (now : Time) (id : String)
    (ret : Ret (Option models.CoinDetails)) (hw : WellTyped s.cache)
    (hcall : s.GetCoinDetails now id = some ret) : WellTyped ret.cache := by
  unfold Service.GetCoinDetails at hcall
  simp only [] at hcall
  repeat' split at hcall
  all_goals cases hcall
  all_goals first
    | exact hw
    | exact setCache_wellTyped s now _ _ _ hw (coinDetailsKey_head id)

theorem GetCoinDetails_no_panic (s : Service) (now : Time) (id : String)
    (hw : WellTyped s.cache) : ∃ ret, s.GetCoinDetails now id = some ret := by
  unfold Service.GetCoinDetails
  simp only []
  rcases cache_lookup_cases s now (coinDetailsKey id) with h | ⟨item, hitem, h⟩
  · rw [h]
    simp only []
    repeat' split
    all_goals exact ⟨_, rfl⟩
  · rw [h]
    have htag := hw _ item hitem
    rw [coinDetailsKey_head] at htag
    cases hdata : item.data with
    | coinDetails d => exact ⟨_, rfl⟩
    | marketData d => rw [hdata] at htag; simp [Payload.tag] at htag
    | historicalData d => rw [hdata] at htag; simp [Payload.tag] at htag
    | globalMarketData d => rw [hdata] at htag; simp [Payload.tag] at htag

theorem GetMarketData_wellTyped (s : Service) (now : Time) (cmcFirst : Bool) (currency : String) (limit page : Int) (ids : List String)
    (ret : Ret (List models.CryptoData)) (hw : WellTyped s.cache)
    (hcall : s.GetMarketData now cmcFirst currency limit page ids = some ret) : WellTyped ret.cache := by
  unfold Service.GetMarketData at hcall
  simp only [] at hcall
  repeat' split at hcall
  all_goals cases hcall
  all_goals first
    | exact hw
    | exact setCache_wellTyped s now _ _ _ hw (marketDataKey_head currency limit page ids)

theorem GetMarketData_no_panic (s : Service) (now : Time) (cmcFirst : Bool) (currency : String) (limit page : Int) (ids : List String)
    (hw : WellTyped s.cache) : ∃ ret, s.GetMarketData now cmcFirst currency limit page ids = some ret := by
  unfold Service.GetMarketData
  simp only []
  rcases cache_lookup_cases s now (marketDataKey currency limit page ids) with h | ⟨item, hitem, h⟩
  · rw [h]
    simp only []
    repeat' split
    all_goals exact ⟨_, rfl⟩
  · rw [h]
    have htag := hw _ item hitem
    rw [marketDataKey_head] at htag
    cases hdata : item.data with
    | marketData d => exact ⟨_, rfl⟩
    | coinDetails d => rw [hdata] at htag; simp [Payload.tag] at htag
    | historicalData d => rw [hdata] at htag; simp [Payload.tag] at htag
    | globalMarketData d => rw [hdata] at htag; simp [Payload.tag] at htag

theorem GetHistoricalData_wellTyped (s : Service) (now : Time) (id currency : String) (days : Int)
    (ret : Ret (Option models.HistoricalData)) (hw : WellTyped s.cache)
    (hcall : s.GetHistoricalData now id currency days = some ret) : WellTyped ret.cache := by
  unfold Service.GetHistoricalData at hcall
  simp only [] at hcall
  repeat' split at hcall
  all_goals cases hcall
  all_goals first
    | exact hw
    | exact setCache_wellTyped s now _ _ _ hw (historicalDataKey_head id currency days)

theorem GetHistoricalData_no_panic (s : Service) (now : Time) (id currency : String) (days : Int)
    (hw : WellTyped s.cache) : ∃ ret, s.GetHistoricalData now id currency days = some ret := by
  unfold Service.GetHistoricalData
  simp only []
  rcases cache_lookup_cases s now (historicalDataKey id currency days) with h | ⟨item, hitem, h⟩
  · rw [h]
    simp only []
    repeat' split
    all_goals exact ⟨_, rfl⟩
  · rw [h]
    have htag := hw _ item hitem
    rw [historicalDataKey_head] at htag
    cases hdata : item.data with
    | historicalData d => exact ⟨_, rfl⟩
    | marketData d => rw [hdata] at htag; simp [Payload.tag] at htag
    | coinDetails d => rw [hdata] at htag; simp [Payload.tag] at htag
    | globalMarketData d => rw [hdata] at htag; simp [Payload.tag] at htag

theorem GetGlobalMarketData_wellTyped (s : Service) (now : Time) 
    (ret : Ret (Option models.GlobalMarketData)) (hw : WellTyped s.cache)
    (hcall : s.GetGlobalMarketData now  = some ret) : WellTyped ret.cache := by
  unfold Service.GetGlobalMarketData at hcall
  simp only [] at hcall
  repeat' split at hcall
  all_goals cases hcall
  all_goals first
    | exact hw
    | exact setCache_wellTyped s now _ _ _ hw (globalMarketDataKey_head)

theorem GetGlobalMarketData_no_panic (s : Service) (now : Time) 
    (hw : WellTyped s.cache) : ∃ ret, s.GetGlobalMarketData now  = some ret := by
  unfold Service.GetGlobalMarketData
  simp only []
  rcases cache_lookup_cases s now (globalMarketDataKey) with h | ⟨item, hitem, h⟩
  · rw [h]
    simp only []
    repeat' split
    all_goals exact ⟨_, rfl⟩
  · rw [h]
    have htag := hw _ item hitem
    rw [globalMarketDataKey_head] at htag
    cases hdata : item.data with
    | globalMarketData d => exact ⟨_, rfl⟩
    | marketData d => rw [hdata] at htag; simp [Payload.tag] at htag
    | coinDetails d => rw [hdata] at htag; simp [Payload.tag] at htag
    | historicalData d => rw [hdata] at htag; simp [Payload.tag] at htag

theorem reachable_wellTyped (cache : String → Option cacheItem) (h : CacheReachable cache) :
    WellTyped cache := by
  induction h with
  | init => intro key item hitem; cases hitem
  | afterMarketData s now cmcFirst currency limit page ids ret _ hcall ih =>
    exact GetMarketData_wellTyped s now cmcFirst currency limit page ids ret ih hcall
  | afterCoinDetails s now id ret _ hcall ih =>
    exact GetCoinDetails_wellTyped s now id ret ih hcall
  | afterHistoricalData s now id currency days ret _ hcall ih =>
    exact GetHistoricalData_wellTyped s now id currency days ret ih hcall
  | afterGlobalMarketData s now ret _ hcall ih =>
    exact GetGlobalMarketData_wellTyped s now ret ih hcall

theorem head_ne {a b : String} {x y : Char} (ha : a.data.head? = some x)
    (hb : b.data.head? = some y) (hxy : x ≠ y) : a ≠ b := by
  intro h
  rw [h, hb] at ha
  exact hxy (Option.some.inj ha).symm

/-- C27.  Type assertions on cached values cannot fail: the cache keys of the
four operations are pairwise distinct for all parameter values; in every cache
map reachable from the empty one by the four operations, the value stored under
a key has the dynamic type of the operation that owns the key; and so, on a
service holding a reachable cache, none of the four operations panics. -/
theorem C27_type_assertions_safe :
    (∀ (currency : String) (limit page : Int) (ids : List String) (id id' cur : String)
       (days : Int),
      marketDataKey currency limit page ids ≠ coinDetailsKey id ∧
      marketDataKey currency limit page ids ≠ historicalDataKey id' cur days ∧
      marketDataKey currency limit page ids ≠ globalMarketDataKey ∧
      coinDetailsKey id ≠ historicalDataKey id' cur days ∧
      coinDetailsKey id ≠ globalMarketDataKey ∧
      historicalDataKey id' cur days ≠ globalMarketDataKey) ∧
    (∀ cache, CacheReachable cache → WellTyped cache) ∧
    (∀ (s : Service) (now : Time), CacheReachable s.cache →
      (∀ cmcFirst currency limit page ids,
        ∃ ret, s.GetMarketData now cmcFirst currency limit page ids = some ret) ∧
      (∀ id, ∃ ret, s.GetCoinDetails now id = some ret) ∧
      (∀ id currency days, ∃ ret, s.GetHistoricalData now id currency days = some ret) ∧
      (∃ ret, s.GetGlobalMarketData now = some ret)) := by
  refine ⟨?_, reachable_wellTyped, ?_⟩
  · intro currency limit page ids id id' cur days
    exact ⟨head_ne (marketDataKey_head _ _ _ _) (coinDetailsKey_head _) (by decide),
      head_ne (marketDataKey_head _ _ _ _) (historicalDataKey_head _ _ _) (by decide),
      head_ne (marketDataKey_head _ _ _ _) globalMarketDataKey_head (by decide),
      head_ne (coinDetailsKey_head _) (historicalDataKey_head _ _ _) (by decide),
      head_ne (coinDetailsKey_head _) globalMarketDataKey_head (by decide),
      head_ne (historicalDataKey_head _ _ _) globalMarketDataKey_head (by decide)⟩
  · intro s now hreach
    have hw := reachable_wellTyped s.cache hreach
    exact ⟨fun cmcFirst currency limit page ids =>
        GetMarketData_no_panic s now cmcFirst currency limit page ids hw,
      fun id => GetCoinDetails_no_panic s now id hw,
      fun id currency days => GetHistoricalData_no_panic s now id currency days hw,
      GetGlobalMarketData_no_panic s now hw⟩

theorem C27_type_assertions_safe_witness :
    ∃ ret, Sample.svcCgOnly.GetCoinDetails 0 "bitcoin" = some ret ∧
      WellTyped ret.cache ∧
      ∃ ret', Service.GetCoinDetails { Sample.svcDown with cache := ret.cache }
        (5 * time.Minute) "bitcoin" = some ret' := by
  have hreach : CacheReachable
      (Sample.svcCgOnly.setCache 0 (coinDetailsKey "bitcoin")
        (Payload.coinDetails Sample.detailsT1) (10 * time.Minute)) :=
    CacheReachable.afterCoinDetails Sample.svcCgOnly 0 "bitcoin" _ CacheReachable.init rfl
  exact ⟨_, rfl, C27_type_assertions_safe.2.1 _ hreach,
    (C27_type_assertions_safe.2.2 { Sample.svcDown with cache := _ } (5 * time.Minute)
      hreach).2.1 "bitcoin"⟩

end market

namespace inmemory

theorem wrapInt64_of_range (x : Int) (hlo : -9223372036854775808 ≤ x)
    (hhi : x ≤ 9223372036854775807) : time.wrapInt64 x = x := by
  unfold time.wrapInt64
  omega

/-- Away from integer overflow, `GetMarketData` on a store with at least one
record answers, without error, the window of `limit` records starting at index
`(page - 1) * limit` of the rank-sorted candidates (`limit <= 0` read as 100,
`page <= 0` as 1), clipped to their length. -/
theorem GetMarketData_window (r : CryptoRepository) (visit : List String) (sort : RankSort)
    (currency : String) (limit page : Int) (ids : List String) (L P : Int)
    (hL : L = if limit ≤ 0 then 100 else limit) (hP : P = if page ≤ 0 then 1 else page)
    (hvisit : visit ≠ []) (hbound : (P - 1) * L + L ≤ 9223372036854775807) :
    r.GetMarketData visit sort currency limit page ids = some
      ⟨((sort.run (if ids.length > 0 then ids.filterMap r.marketData
          else visit.filterMap r.marketData)).drop ((P - 1) * L).toNat).take L.toNat, none⟩ := by
  have hLpos : 1 ≤ L := by rw [hL]; split <;> omega
  have hPpos : 1 ≤ P := by rw [hP]; split <;> omega
  have hstart0 : 0 ≤ (P - 1) * L := Int.mul_nonneg (by omega) (by omega)
  have hlen : ¬ visit.length = 0 := fun h => hvisit (List.length_eq_zero.mp h)
  unfold CryptoRepository.GetMarketData
  simp only [hlen, if_false, ← hL, ← hP]
  generalize sort.run (if ids.length > 0 then ids.filterMap r.marketData
      else visit.filterMap r.marketData) = data
  rw [wrapInt64_of_range ((P - 1) * L) (by omega) (by omega)]
  rw [wrapInt64_of_range ((P - 1) * L + L) (by omega) (by omega)]
  generalize hS : (P - 1) * L = S at hstart0 hbound
  by_cases hge : S ≥ (data.length : Int)
  · rw [if_pos hge]
    have hdrop : data.drop S.toNat = [] := by
      apply List.drop_eq_nil_of_le
      omega
    rw [hdrop]
    simp
  · rw [if_neg hge]
    by_cases hclip : S + L > (data.length : Int)
    · simp only [hclip, if_true]
      have hcond : 0 ≤ S ∧ S ≤ (data.length : Int) := ⟨hstart0, by omega⟩
      rw [if_pos hcond]
      have h1 : ((data.length : Int) - S).toNat = (data.drop S.toNat).length := by
        rw [List.length_drop]
        omega
      rw [h1, List.take_length]
      rw [List.take_of_length_le]
      rw [List.length_drop]
      omega
    · simp only [hclip, if_false]
      have hcond : 0 ≤ S ∧ S ≤ S + L := ⟨hstart0, by omega⟩
      rw [if_pos hcond]
      have h2 : (S + L - S).toNat = L.toNat := by
        congr 1
        omega
      rw [h2]

/-- Away from integer overflow the answer of `GetMarketData` is ordered by
nondecreasing `MarketCapRank`, has at most `limit` items, is empty when the
window starts at or past the end, and draws on all stored records when `ids` is
empty. -/
theorem GetMarketData_in_range (r : CryptoRepository) (visit : List String) (sort : RankSort)
    (currency : String) (limit page : Int) (ids : List String) (L P : Int)
    (hL : L = if limit ≤ 0 then 100 else limit) (hP : P = if page ≤ 0 then 1 else page)
    (hvisit : visit ≠ []) (hbound : (P - 1) * L + L ≤ 9223372036854775807) :
    ∃ res, r.GetMarketData visit sort currency limit page ids = some ⟨res, none⟩ ∧
      res.Pairwise (fun a b => a.MarketCapRank ≤ b.MarketCapRank) ∧
      (res.length : Int) ≤ L ∧
      (∀ x ∈ res, x ∈ (if ids.length > 0 then ids.filterMap r.marketData
          else visit.filterMap r.marketData)) ∧
      (((if ids.length > 0 then ids.filterMap r.marketData
          else visit.filterMap r.marketData).length : Int) ≤ (P - 1) * L → res = []) ∧
      (Enumerates visit r.marketData →
        ∀ x, x ∈ visit.filterMap r.marketData ↔ ∃ k, r.marketData k = some x) := by
  have hLpos : 1 ≤ L := by rw [hL]; split <;> omega
  have hPpos : 1 ≤ P := by rw [hP]; split <;> omega
  have hstart0 : 0 ≤ (P - 1) * L := Int.mul_nonneg (by omega) (by omega)
  refine ⟨_, GetMarketData_window r visit sort currency limit page ids L P hL hP hvisit hbound,
    ?_, ?_, ?_, ?_, ?_⟩
  · exact (sort.sorted _).sublist ((List.take_sublist _ _).trans (List.drop_sublist _ _))
  · have hle := List.length_take_le L.toNat
      ((sort.run (if ids.length > 0 then ids.filterMap r.marketData
        else visit.filterMap r.marketData)).drop ((P - 1) * L).toNat)
    omega
  · intro x hx
    exact (sort.perm _).subset (List.mem_of_mem_drop (List.mem_of_mem_take hx))
  · intro hpast
    have hlen := (sort.perm (if ids.length > 0 then ids.filterMap r.marketData
        else visit.filterMap r.marketData)).length_eq
    rw [List.drop_eq_nil_of_le (by omega)]
    exact List.take_nil
  · intro henum x
    rw [List.mem_filterMap]
    constructor
    · rintro ⟨k, _, hk⟩
      exact ⟨k, hk⟩
    · rintro ⟨k, hk⟩
      exact ⟨k, (henum.2 k).mpr (by rw [hk]; rfl), hk⟩

/-- C24 (at an input where `(page - 1) * limit` leaves the range of `int`): on the
store holding one record, visited as `["bitcoin"]`, with `limit = 4`, page 2
gives the empty list, but page `2^62` makes `start` wrap to `-4`, which passes
the test `start >= len(data)` and makes the slice expression panic, and page
`2^62 + 1` makes `start` wrap to `0`, so the first page is returned although
the requested window starts far past the end. -/
theorem C24_page_overflow :
    Enumerates ["bitcoin"] Sample.storeT1.marketData ∧
    Sample.storeT1.GetMarketData ["bitcoin"] insertionRankSort "usd" 4 2 [] =
      some ⟨[], none⟩ ∧
    Sample.storeT1.GetMarketData ["bitcoin"] insertionRankSort "usd" 4
      4611686018427387904 [] = none ∧
    Sample.storeT1.GetMarketData ["bitcoin"] insertionRankSort "usd" 4
      4611686018427387905 [] = some ⟨[Sample.marketT1], none⟩ := by
  refine ⟨⟨by simp, ?_⟩, ?_, ?_, ?_⟩
  · intro k
    by_cases hk : k = "bitcoin"
    · simp [hk, Sample.storeT1]
    · simp [hk, Sample.storeT1]
  · simp [CryptoRepository.GetMarketData, Sample.storeT1, insertionRankSort, time.wrapInt64]
  · simp [CryptoRepository.GetMarketData, Sample.storeT1, insertionRankSort, time.wrapInt64]
  · simp [CryptoRepository.GetMarketData, Sample.storeT1, insertionRankSort, time.wrapInt64]

end inmemory

end GoFolio
